import Mathlib

/-!
Programacion_II: `Sesiones/BDE/main.c` and `libs/proyecto/tui.h`

A shallow embedding of the record reader/writer of `Sesiones/BDE/main.c` and of the
declarations of `libs/proyecto/tui.h`, with the properties of the specification stated
and proved over it.

Conventions of the embedding of `main.c`:

* a C `int` is an `Int`; no arithmetic is performed on the record fields, and the two
  counts enter the allocation sizes through the conversion to `size_t` (`sizeMul`);
* a `FILE *` is a natural number, `0` being the null pointer; the text written so far to
  each stream is `World.files`, and `World.writable` tells which streams accept output;
* heap blocks are identified by their address, a positive natural number, `0` being the
  null pointer; `malloc` asks the allocator of the world (`World.grants`), which may refuse
  any request, and returns null when it does;
* the contents of a block travel with the pointer (`CharPtr`, `RowPtr`, `DatoPtr`); a load
  or store through a null pointer ends the run with `Fault.null`;
* every value read, every text written and every allocation, load, store and release is
  recorded, in program order, in `World.log`.
-/

namespace BDE

/-! ## Data model of `main.c` -/

/-- A C `double`, kept as its 64-bit pattern; its conversion to text is a parameter. -/
structure CDouble where
  bits : Nat
deriving DecidableEq, Repr

/-- A `char *` to a NUL-terminated heap buffer: the address and the characters it holds. -/
structure CharPtr where
  addr : Nat
  text : String
deriving DecidableEq, Repr

/-- The `String` struct of `string/string.h`; `main.c` only uses its member `str`. -/
structure CString where
  str : CharPtr
deriving DecidableEq, Repr

/-- The struct `Empresa` (main.c, lines 8-12). -/
structure Empresa where
  idEmpresa : Int
  RazonSocial : CString
deriving DecidableEq, Repr

/-- The struct `Departamento` (main.c, lines 14-19). -/
structure Departamento where
  idDepartamento : Int
  nombre : CString
  projecto : CString
deriving DecidableEq, Repr

/-- The struct `Empleado` (main.c, lines 21-26). -/
structure Empleado where
  idEmpleado : Int
  nombre : CString
  sueldo : CDouble
deriving DecidableEq, Repr

/-- The struct `Relacion` (main.c, lines 28-34); `idRelacion` is the member `idRelación`. -/
structure Relacion where
  idRelacion : Int
  empresa : Empresa
  departamento : Departamento
  empleado : Empleado
deriving DecidableEq, Repr

/-- A `Relacion *` to a heap array: the address and the cells. For the null pointer the
address is 0 and the cells stand for nothing: every access through it faults first. -/
structure RowPtr where
  addr : Nat
  cells : List Relacion
deriving DecidableEq, Repr

/-- A `Relacion **` to a heap array of row pointers: the address and the cells. For the null
pointer the address is 0 and the cells stand for nothing: every access through it faults
first. -/
structure DatoPtr where
  addr : Nat
  cells : List RowPtr
deriving DecidableEq, Repr

/-- What the C implementation fixes and `main.c` does not: the size of a `Relacion` (it
depends on the `String` struct, which is not among the sources), positive and far below
the range of `size_t`, and the indeterminate contents that `malloc` leaves in the cells of
a new block. Pointers are 8 bytes wide and `size_t` has 64 bits. -/
structure Platform where
  sizeofRelacion : Nat
  sizeofRelacion_pos : 0 < sizeofRelacion
  sizeofRelacion_lt : sizeofRelacion < 2 ^ 32
  row : RowPtr
  rel : Relacion

/-- The way a run ends when it does not return: a read that did not succeed, a load or
store through a null pointer, or an access outside a block. -/
inductive Fault
  | input
  | null
  | bounds
deriving DecidableEq, Repr

/-! ## The world: streams, the allocator and the event log -/

/-- One value waiting on standard input. -/
inductive Token
  | int (v : Int)
  | str (s : String)
  | dbl (d : CDouble)
deriving DecidableEq, Repr

/-- One event of a run: a value read from standard input, a text written to a stream, a
call of `malloc` with the address it returned (0 when refused) and the size asked for, a
load from or a store to a block, a call of `free`. -/
inductive Event
  | read (t : Token)
  | write (stream : Nat) (text : String)
  | alloc (addr : Nat) (size : Nat)
  | load (addr : Nat)
  | store (addr : Nat)
  | free (addr : Nat)
deriving DecidableEq, Repr

/-- The address of the block an event is about; 0, the address of no block, for a read or
a write. -/
def Event.addr : Event → Nat
  | Event.alloc a _ => a
  | Event.load a => a
  | Event.store a => a
  | Event.free a => a
  | _ => 0

/-- The state outside the program's variables. `files s` is the text written to the stream
`s` by the code of `main.c` and `writable s` tells whether the stream accepts output;
`prompts` is the sequence of prompts shown by the `input` macro; `next` is the last heap
address handed out and `grants a size` tells whether the allocator satisfies a request of
`size` bytes that would receive the address `a`; `log` is the trace of events. -/
structure World where
  stdin : List Token
  files : Nat → String
  writable : Nat → Bool
  prompts : List String
  next : Nat
  grants : Nat → Nat → Bool
  log : List Event

/-- The stream `stdout`, a non-null `FILE *`. -/
def stdout : Nat := 1

/-- Records one event. -/
def World.ev (w : World) (e : Event) : World :=
  { w with log := w.log ++ [e] }

/-- The size `count * elem` as `main.c` computes it: the `int` count converted to the
64-bit `size_t`, the product taken modulo `2 ^ 64`. -/
def sizeMul (count : Int) (elem : Nat) : Nat :=
  ((count % 2 ^ 64).toNat * elem) % 2 ^ 64

/-- The call `malloc(size)`: a fresh address when the allocator grants the request, the
null pointer when it does not. -/
def malloc (size : Nat) (w : World) : Nat × World :=
  if w.grants (w.next + 1) size then
    (w.next + 1, { w with next := w.next + 1, log := w.log ++ [Event.alloc (w.next + 1) size] })
  else
    (0, w.ev (Event.alloc 0 size))

/-- The call `free(p)`; `free(NULL)` does nothing, and is recorded like any other call. -/
def free (p : Nat) (w : World) : World :=
  w.ev (Event.free p)

/-- A store to a cell of the block at `p`: a fault when `p` is null. -/
def store (p : Nat) (w : World) : Except Fault World :=
  if p = 0 then Except.error Fault.null else Except.ok (w.ev (Event.store p))

/-- A load from a cell of the block at `p`: a fault when `p` is null. -/
def load (p : Nat) (w : World) : Except Fault World :=
  if p = 0 then Except.error Fault.null else Except.ok (w.ev (Event.load p))

/-- The cell `i` of a block: a fault outside the block. -/
def index {α : Type} (cells : List α) (i : Nat) : Except Fault α :=
  match cells[i]? with
  | some x => Except.ok x
  | none => Except.error Fault.bounds

/-! ## `fprintf` -/

/-- One variadic argument of `fprintf`. -/
inductive Arg
  | int (v : Int)
  | str (p : CharPtr)
  | dbl (d : CDouble)

/-- The conversion `%i`: signed decimal. -/
def fmtInt (v : Int) : String :=
  if v < 0 then "-" ++ Nat.repr v.natAbs else Nat.repr v.natAbs

/-- The text `fprintf` produces for a format and its arguments; `fmtLf` is the C library's
conversion `%lf`. Only the conversions `%i`, `%s` and `%lf` occur in `main.c`. -/
def render (fmtLf : CDouble → String) : List Char → List Arg → String
  | [], _ => ""
  | c :: fmt, args =>
    if c = '%' then
      match fmt, args with
      | 'i' :: fmt1, Arg.int v :: args1 => fmtInt v ++ render fmtLf fmt1 args1
      | 's' :: fmt1, Arg.str p :: args1 => p.text ++ render fmtLf fmt1 args1
      | 'l' :: 'f' :: fmt1, Arg.dbl d :: args1 => fmtLf d ++ render fmtLf fmt1 args1
      | _, _ => ""
    else String.singleton c ++ render fmtLf fmt args

/-- The heap loads `fprintf` performs: one per `%s` argument, in order. -/
def argLoads : List Arg → List Event
  | [] => []
  | Arg.str p :: args => Event.load p.addr :: argLoads args
  | _ :: args => argLoads args

/-- The call `fprintf(stream, format, args...)` on a non-null stream. On a stream that
accepts output the text is appended; on one that does not (not open for writing, device
full) the call fails and nothing is written. `main.c` never looks at the value returned,
which is therefore not modelled. -/
def fprintf (fmtLf : CDouble → String) (stream : Nat) (format : String) (args : List Arg)
    (w : World) : World :=
  if w.writable stream then
    { w with
      files := Function.update w.files stream (w.files stream ++ render fmtLf format.data args)
      log := w.log ++ argLoads args ++
        [Event.write stream (render fmtLf format.data args)] }
  else w

/-- The function `writeRelacion` (main.c, lines 36-64). -/
def writeRelacion (fmtLf : CDouble → String) (relacion : Relacion) (stream : Nat)
    (w : World) : Int × World :=
  if stream = 0 then
    (-1, w)
  else
    (1, fprintf fmtLf stream
          "%i\n%i\n%s\n%i\n%s\n%s\n%i\n%s\n%lf\n"
          [Arg.int relacion.idRelacion,
           Arg.int relacion.empresa.idEmpresa,
           Arg.str relacion.empresa.RazonSocial.str,
           Arg.int relacion.departamento.idDepartamento,
           Arg.str relacion.departamento.nombre.str,
           Arg.str relacion.departamento.projecto.str,
           Arg.int relacion.empleado.idEmpleado,
           Arg.str relacion.empleado.nombre.str,
           Arg.dbl relacion.empleado.sueldo] w)

/-- Modelled from the spec: the macro `input` of `io/io.h`, which is not among the sources.
The spec says the program prompts for each field and then reads it: the prompt is recorded
in `prompts` and the reader is run. A read that does not succeed ends the run. -/
def input {α : Type} (prompt : String) (evaluar : World → Except Fault (α × World))
    (w : World) : Except Fault (α × World) :=
  evaluar { w with prompts := w.prompts ++ [prompt] }

/-- Modelled from the spec: `evaluarInt(stdin, &x)` of `io/io.h`, which is not among the
sources: reads one integer from standard input. -/
def evaluarInt (w : World) : Except Fault (Int × World) :=
  match w.stdin with
  | Token.int v :: rest =>
    Except.ok (v, { w with stdin := rest, log := w.log ++ [Event.read (Token.int v)] })
  | _ => Except.error Fault.input

/-- Modelled from the spec: `evaluarDouble(stdin, &x)` of `io/io.h`, which is not among the
sources: reads one floating-point number from standard input. -/
def evaluarDouble (w : World) : Except Fault (CDouble × World) :=
  match w.stdin with
  | Token.dbl d :: rest =>
    Except.ok (d, { w with stdin := rest, log := w.log ++ [Event.read (Token.dbl d)] })
  | _ => Except.error Fault.input

/-- Modelled from the spec: `evaluarString(stdin, &s)` of `io/io.h`, which is not among the
sources: reads one string from standard input into a newly allocated buffer, the one
`main` later releases through `s.str`; the read does not succeed when the buffer cannot be
allocated. -/
def evaluarString (w : World) : Except Fault (CString × World) :=
  match w.stdin with
  | Token.str s :: rest =>
    let (a, w1) := malloc (s.length + 1)
      { w with stdin := rest, log := w.log ++ [Event.read (Token.str s)] }
    if a = 0 then Except.error Fault.input
    else Except.ok ({ str := { addr := a, text := s } }, w1)
  | _ => Except.error Fault.input

/-- The function `inputRelacion` (main.c, lines 66-76). The argument `p` is the address of
the block the pointer `relacion` points into and `relacion` the value it points to; each
reader stores what it read through the pointer, and the result is the value pointed to
after the nine stores. -/
def inputRelacion (p : Nat) (relacion : Relacion) (w : World) :
    Except Fault (Relacion × World) := do
  let (v, w) ← input "idRelación: " evaluarInt w
  let w ← store p w
  let relacion := { relacion with idRelacion := v }
  let (v, w) ← input "idEmpresa: " evaluarInt w
  let w ← store p w
  let relacion := { relacion with empresa := { relacion.empresa with idEmpresa := v } }
  let (s, w) ← input "RazonSocial: " evaluarString w
  let w ← store p w
  let relacion := { relacion with empresa := { relacion.empresa with RazonSocial := s } }
  let (v, w) ← input "idDepartamento: " evaluarInt w
  let w ← store p w
  let relacion :=
    { relacion with departamento := { relacion.departamento with idDepartamento := v } }
  let (s, w) ← input "nombre: " evaluarString w
  let w ← store p w
  let relacion := { relacion with departamento := { relacion.departamento with nombre := s } }
  let (s, w) ← input "projecto: " evaluarString w
  let w ← store p w
  let relacion := { relacion with departamento := { relacion.departamento with projecto := s } }
  let (v, w) ← input "idEmpleado: " evaluarInt w
  let w ← store p w
  let relacion := { relacion with empleado := { relacion.empleado with idEmpleado := v } }
  let (s, w) ← input "nombre: " evaluarString w
  let w ← store p w
  let relacion := { relacion with empleado := { relacion.empleado with nombre := s } }
  let (d, w) ← input "sueldo: " evaluarDouble w
  let w ← store p w
  let relacion := { relacion with empleado := { relacion.empleado with sueldo := d } }
  pure (relacion, w)

/-! ## `main` -/

/-- The loop `for (int i = i0; i < i0 + k; i++) body`: the iteration `i`, then the `k - 1`
iterations from `i + 1` on, stopping at the first one that faults. -/
def forLoop {σ : Type} (body : Nat → σ → Except Fault σ) : Nat → Nat → σ → Except Fault σ
  | _, 0, s => Except.ok s
  | i, k + 1, s => Except.bind (body i s) (forLoop body (i + 1) k)

/-- The rvalue `dato[i]`: a load from the outer array. -/
def loadRow (dato : DatoPtr) (i : Nat) (w : World) : Except Fault (RowPtr × World) := do
  let w ← load dato.addr w
  let row ← index dato.cells i
  pure (row, w)

/-- The rvalue `row[j]` (or one of its members): a load from the row array. -/
def loadRel (row : RowPtr) (j : Nat) (w : World) : Except Fault (Relacion × World) := do
  let w ← load row.addr w
  let r ← index row.cells j
  pure (r, w)

/-- The statement `dato[i] = (Relacion*)malloc(M * sizeof(Relacion));` (main.c, line 88):
the result of `malloc`, null or not, is stored in the outer array. -/
def allocStep (u : Platform) (M : Int) (i : Nat) (s : DatoPtr × World) :
    Except Fault (DatoPtr × World) := do
  let (a, w) := malloc (sizeMul M u.sizeofRelacion) s.2
  let row : RowPtr := { addr := a, cells := List.replicate M.toNat u.rel }
  let w ← store s.1.addr w
  if i < s.1.cells.length then
    pure ({ s.1 with cells := s.1.cells.set i row }, w)
  else Except.error Fault.bounds

/-- The statement `inputRelacion(&dato[i][j]);` (main.c, line 94). Forming the pointer
`&dato[i][j]` loads `dato[i]` and nothing else; when that row pointer is null the first
store of `inputRelacion` goes through a null pointer. -/
def inputStep (i j : Nat) (s : DatoPtr × World) : Except Fault (DatoPtr × World) := do
  let (row, w) ← loadRow s.1 i s.2
  let old ← index row.cells j
  let (r, w) ← inputRelacion row.addr old w
  let row1 : RowPtr := { row with cells := row.cells.set j r }
  pure ({ s.1 with cells := s.1.cells.set i row1 }, w)

/-- The statement `writeRelacion(dato[i][j], stdout);` (main.c, line 101). -/
def writeStep (fmtLf : CDouble → String) (dato : DatoPtr) (i j : Nat) (w : World) :
    Except Fault World := do
  let (row, w) ← loadRow dato i w
  let (r, w) ← loadRel row j w
  pure (writeRelacion fmtLf r stdout w).2

/-- The four statements `free(dato[i][j]. ... .str);` (main.c, lines 109-112). -/
def freeStep (dato : DatoPtr) (i j : Nat) (w : World) : Except Fault World := do
  let (row, w) ← loadRow dato i w
  let (r, w) ← loadRel row j w
  let w := free r.empleado.nombre.str.addr w
  let (row, w) ← loadRow dato i w
  let (r, w) ← loadRel row j w
  let w := free r.departamento.nombre.str.addr w
  let (row, w) ← loadRow dato i w
  let (r, w) ← loadRel row j w
  let w := free r.departamento.projecto.str.addr w
  let (row, w) ← loadRow dato i w
  let (r, w) ← loadRel row j w
  let w := free r.empresa.RazonSocial.str.addr w
  pure w

/-- The statement `free(dato[i]);` (main.c, line 114). -/
def freeRowStep (dato : DatoPtr) (i : Nat) (w : World) : Except Fault World := do
  let (row, w) ← loadRow dato i w
  pure (free row.addr w)

/-- The function `main` (main.c, lines 78-120): the value returned and the final world, or
the fault that ends the run. No result of `malloc` is tested, as in the source. -/
def main (fmtLf : CDouble → String) (u : Platform) (w : World) :
    Except Fault (Int × World) := do
  -- Sesiones
  let (N, w) ← input "Ingrese el numero de sesiones: " evaluarInt w
  let (a, w) := malloc (sizeMul N 8) w
  let dato : DatoPtr := { addr := a, cells := List.replicate N.toNat u.row }
  -- Relaciones de cada sesion
  let (M, w) ← input "Ingrese el numero de relaciones: " evaluarInt w
  let (dato, w) ← forLoop (allocStep u M) 0 N.toNat (dato, w)
  -- Relacion Input
  let (dato, w) ← forLoop (fun i => forLoop (inputStep i) 0 M.toNat) 0 N.toNat (dato, w)
  -- Relacion Output
  let w ← forLoop (fun i => forLoop (writeStep fmtLf dato i) 0 M.toNat) 0 N.toNat w
  -- Memory free
  let w ← forLoop
    (fun i w => Except.bind (forLoop (freeStep dato i) 0 M.toNat w) (freeRowStep dato i))
    0 N.toNat w
  let w := free dato.addr w
  pure (0, w)

/-! ## Closed forms used to state what `main` does -/

/-- The nine values read for one record, in the order `inputRelacion` reads them. -/
structure RelIn where
  idRelacion : Int
  idEmpresa : Int
  RazonSocial : String
  idDepartamento : Int
  depNombre : String
  projecto : String
  idEmpleado : Int
  empNombre : String
  sueldo : CDouble
deriving DecidableEq, Repr

/-- The values of a record as they stand on standard input. -/
def RelIn.tokens (r : RelIn) : List Token :=
  [Token.int r.idRelacion, Token.int r.idEmpresa, Token.str r.RazonSocial,
   Token.int r.idDepartamento, Token.str r.depNombre, Token.str r.projecto,
   Token.int r.idEmpleado, Token.str r.empNombre, Token.dbl r.sueldo]

/-- The text of one value as `fprintf` converts it (`%i`, `%s`, `%lf`). -/
def Token.text (fmtLf : CDouble → String) : Token → String
  | Token.int v => fmtInt v
  | Token.str s => s
  | Token.dbl d => fmtLf d

/-- The record `inputRelacion` leaves in memory for the values `r` when the last address
handed out before the call was `b`. -/
def RelIn.toRelacion (b : Nat) (r : RelIn) : Relacion :=
  { idRelacion := r.idRelacion
    empresa := { idEmpresa := r.idEmpresa, RazonSocial := ⟨⟨b + 1, r.RazonSocial⟩⟩ }
    departamento :=
      { idDepartamento := r.idDepartamento
        nombre := ⟨⟨b + 2, r.depNombre⟩⟩
        projecto := ⟨⟨b + 3, r.projecto⟩⟩ }
    empleado :=
      { idEmpleado := r.idEmpleado, nombre := ⟨⟨b + 4, r.empNombre⟩⟩, sueldo := r.sueldo } }

/-- The nine prompts of `inputRelacion`. -/
def recPrompts : List String :=
  ["idRelación: ", "idEmpresa: ", "RazonSocial: ", "idDepartamento: ", "nombre: ",
   "projecto: ", "idEmpleado: ", "nombre: ", "sueldo: "]

/-- The events of one call of `inputRelacion` on a cell of the block `p`, every
allocation granted: each value is read, a string gets its buffer, and the value is stored. -/
def recInputLog (p b : Nat) (r : RelIn) : List Event :=
  [Event.read (Token.int r.idRelacion), Event.store p,
   Event.read (Token.int r.idEmpresa), Event.store p,
   Event.read (Token.str r.RazonSocial), Event.alloc (b + 1) (r.RazonSocial.length + 1),
   Event.store p,
   Event.read (Token.int r.idDepartamento), Event.store p,
   Event.read (Token.str r.depNombre), Event.alloc (b + 2) (r.depNombre.length + 1),
   Event.store p,
   Event.read (Token.str r.projecto), Event.alloc (b + 3) (r.projecto.length + 1),
   Event.store p,
   Event.read (Token.int r.idEmpleado), Event.store p,
   Event.read (Token.str r.empNombre), Event.alloc (b + 4) (r.empNombre.length + 1),
   Event.store p,
   Event.read (Token.dbl r.sueldo), Event.store p]

/-- The change of the world made by a stretch of the program: standard input is left at
`rest`, `out` is written to `stdout`, the prompts `ps` are shown, `k` addresses are handed
out and the events `evs` take place. -/
def World.step (w : World) (rest : List Token) (out : String) (ps : List String) (k : Nat)
    (evs : List Event) : World :=
  { stdin := rest
    files := Function.update w.files stdout (w.files stdout ++ out)
    writable := w.writable
    prompts := w.prompts ++ ps
    next := w.next + k
    grants := w.grants
    log := w.log ++ evs }

/-- The cells of a row after its records were read, the first one at heap counter `b`. -/
def relsOf : Nat → List RelIn → List Relacion
  | _, [] => []
  | b, r :: rs => r.toRelacion b :: relsOf (b + 4) rs

/-- The events of the input loop over one row (`a` the outer block, `p` the row). -/
def rowInputLog (a p : Nat) : Nat → List RelIn → List Event
  | _, [] => []
  | b, r :: rs => Event.load a :: recInputLog p b r ++ rowInputLog a p (b + 4) rs

/-- The rows after the input loops: row `i` lives at address `p + i`. -/
def rowsOf : Nat → Nat → List (List RelIn) → List RowPtr
  | _, _, [] => []
  | p, b, rins :: rs => ⟨p, relsOf b rins⟩ :: rowsOf (p + 1) (b + 4 * rins.length) rs

/-- The events of the two nested input loops. -/
def inputLog (a : Nat) : Nat → Nat → List (List RelIn) → List Event
  | _, _, [] => []
  | p, b, rins :: rs => rowInputLog a p b rins ++ inputLog a (p + 1) (b + 4 * rins.length) rs

/-- The rows right after the allocation loop, every allocation granted, the first one at
address `b + 1`. -/
def allocRows (u : Platform) (M : Int) : Nat → Nat → List RowPtr
  | _, 0 => []
  | b, k + 1 => ⟨b + 1, List.replicate M.toNat u.rel⟩ :: allocRows u M (b + 1) k

/-- The events of the allocation loop, every allocation granted. -/
def allocLog (a size : Nat) : Nat → Nat → List Event
  | _, 0 => []
  | b, k + 1 => Event.alloc (b + 1) size :: Event.store a :: allocLog a size (b + 1) k

/-- The nine fields of a record in the order the specification lists them, each in the
text form it is printed in. -/
def relFields (fmtLf : CDouble → String) (r : Relacion) : List String :=
  [fmtInt r.idRelacion,
   fmtInt r.empresa.idEmpresa,
   r.empresa.RazonSocial.str.text,
   fmtInt r.departamento.idDepartamento,
   r.departamento.nombre.str.text,
   r.departamento.projecto.str.text,
   fmtInt r.empleado.idEmpleado,
   r.empleado.nombre.str.text,
   fmtLf r.empleado.sueldo]

/-- A list of fields written out with a newline after each. -/
def linesText (fields : List String) : String :=
  String.join (fields.map (fun f => f ++ "\n"))

/-- The text of a record: its nine fields, a newline after each. -/
def relText (fmtLf : CDouble → String) (r : Relacion) : String :=
  linesText (relFields fmtLf r)

/-- The text that reaches `stdout` for a record: its text when `stdout` accepts output
(`wr`), nothing otherwise. -/
def relOut (fmtLf : CDouble → String) (wr : Bool) (r : Relacion) : String :=
  if wr then relText fmtLf r else ""

/-- The events of one `writeRelacion(dato[i][j], stdout)`: the two loads that fetch the
record and, when `stdout` accepts output (`wr`), the loads of the four strings and the
write. -/
def relWriteLog (fmtLf : CDouble → String) (wr : Bool) (a p : Nat) (r : Relacion) :
    List Event :=
  [Event.load a, Event.load p] ++
    (if wr then
      [Event.load r.empresa.RazonSocial.str.addr,
       Event.load r.departamento.nombre.str.addr,
       Event.load r.departamento.projecto.str.addr,
       Event.load r.empleado.nombre.str.addr,
       Event.write stdout (relText fmtLf r)]
    else [])

/-- The events of the four releases of the strings of one record. -/
def relFreeLog (a p : Nat) (r : Relacion) : List Event :=
  [Event.load a, Event.load p, Event.free r.empleado.nombre.str.addr,
   Event.load a, Event.load p, Event.free r.departamento.nombre.str.addr,
   Event.load a, Event.load p, Event.free r.departamento.projecto.str.addr,
   Event.load a, Event.load p, Event.free r.empresa.RazonSocial.str.addr]

/-- The text that reaches `stdout` in the output loops for the rows of `dato`. -/
def writeText (fmtLf : CDouble → String) (wr : Bool) (rows : List RowPtr) : String :=
  String.join (rows.flatMap (fun row => row.cells.map (relOut fmtLf wr)))

/-- The events of the output loops for the rows of `dato`. -/
def writeLog (fmtLf : CDouble → String) (wr : Bool) (a : Nat) (rows : List RowPtr) :
    List Event :=
  rows.flatMap (fun row => row.cells.flatMap (relWriteLog fmtLf wr a row.addr))

/-- The events of the release loops, without the final `free(dato)`. -/
def freeRowsLog (a : Nat) (rows : List RowPtr) : List Event :=
  rows.flatMap (fun row =>
    row.cells.flatMap (relFreeLog a row.addr) ++ [Event.load a, Event.free row.addr])

/-- The events of the whole release block (main.c, lines 105-118). -/
def freeLog (dato : DatoPtr) : List Event :=
  freeRowsLog dato.addr dato.cells ++ [Event.free dato.addr]

/-- The addresses passed to `free` in a trace, in order. -/
def frees : List Event → List Nat
  | [] => []
  | Event.free a :: evs => a :: frees evs
  | _ :: evs => frees evs

/-- The values read and the texts written in a trace, in order. -/
def ioEvents : List Event → List Event
  | [] => []
  | Event.read t :: evs => Event.read t :: ioEvents evs
  | Event.write s x :: evs => Event.write s x :: ioEvents evs
  | _ :: evs => ioEvents evs

/-- No block is touched again (released, loaded from or stored to) once released;
`free(NULL)` releases no block. -/
def noUseAfterFree : List Event → Bool
  | [] => true
  | Event.free a :: evs =>
    (a == 0 || evs.all (fun e => e.addr != a)) && noUseAfterFree evs
  | _ :: evs => noUseAfterFree evs

/-- The array `dato` as `main` holds it once the records `recs` were read, every
allocation granted, when the last address handed out before `main` started was `b`. -/
def datoOf (b : Nat) (recs : List (List RelIn)) : DatoPtr :=
  { addr := b + 1, cells := rowsOf (b + 2) (b + 1 + recs.length) recs }

/-- The events of `main` up to the end of the input loops, every allocation granted. -/
def setupLog (u : Platform) (b : Nat) (N M : Int) (recs : List (List RelIn)) : List Event :=
  Event.read (Token.int N) :: Event.alloc (b + 1) (sizeMul N 8) ::
    Event.read (Token.int M) ::
    allocLog (b + 1) (sizeMul M u.sizeofRelacion) (b + 1) recs.length ++
    inputLog (b + 1) (b + 2) (b + 1 + recs.length) recs

/-- The events of a whole run of `main`, every allocation granted: set-up and input, then
output, then release. -/
def mainLog (fmtLf : CDouble → String) (u : Platform) (wr : Bool) (b : Nat) (N M : Int)
    (recs : List (List RelIn)) : List Event :=
  setupLog u b N M recs ++ writeLog fmtLf wr (b + 1) (datoOf b recs).cells ++
    freeLog (datoOf b recs)

/-- Whether the allocator `g` grants the four string buffers read for the record `r`, the
first of them at address `b + 1`. -/
def recGranted (g : Nat → Nat → Bool) (b : Nat) (r : RelIn) : Bool :=
  g (b + 1) (r.RazonSocial.length + 1) && g (b + 2) (r.depNombre.length + 1) &&
    g (b + 3) (r.projecto.length + 1) && g (b + 4) (r.empNombre.length + 1)

/-- Whether the allocator `g` grants the string buffers of the records of one row. -/
def rowGranted (g : Nat → Nat → Bool) : Nat → List RelIn → Bool
  | _, [] => true
  | b, r :: rs => recGranted g b r && rowGranted g (b + 4) rs

/-- Whether the allocator `g` grants the string buffers of the records of all rows. -/
def rowsGranted (g : Nat → Nat → Bool) : Nat → List (List RelIn) → Bool
  | _, [] => true
  | b, rins :: rs => rowGranted g b rins && rowsGranted g (b + 4 * rins.length) rs

/-- Whether the allocator `g` grants `k` requests of `size` bytes in a row, the first of
them at address `b + 1`. -/
def allocGranted (g : Nat → Nat → Bool) (size : Nat) : Nat → Nat → Bool
  | _, 0 => true
  | b, k + 1 => g (b + 1) size && allocGranted g size (b + 1) k

/-- Whether every allocation of the run of `main` that reads the records `recs` succeeds:
the outer array (main.c, line 82), the row arrays (line 88) and the buffers of the strings
read, `b` being the last address handed out before `main` started. -/
def allGranted (g : Nat → Nat → Bool) (u : Platform) (b : Nat) (N M : Int)
    (recs : List (List RelIn)) : Bool :=
  g (b + 1) (sizeMul N 8) &&
    allocGranted g (sizeMul M u.sizeofRelacion) (b + 1) recs.length &&
    rowsGranted g (b + 1 + recs.length) recs

/-- The addresses returned by `k` calls of `malloc(size)` in a row, `b` being the last
address handed out before them: a fresh address for a request the allocator `g` grants,
the null pointer for one it refuses. -/
def allocAddrs (g : Nat → Nat → Bool) (size : Nat) : Nat → Nat → List Nat
  | _, 0 => []
  | b, k + 1 =>
    if g (b + 1) size then (b + 1) :: allocAddrs g size (b + 1) k
    else 0 :: allocAddrs g size b k

/-- How many of `k` calls of `malloc(size)` in a row the allocator `g` grants. -/
def allocCount (g : Nat → Nat → Bool) (size : Nat) : Nat → Nat → Nat
  | _, 0 => 0
  | b, k + 1 =>
    if g (b + 1) size then allocCount g size (b + 1) k + 1 else allocCount g size b k

/-- Whether an event reads or writes a cell of a block. -/
def Event.isAccess : Event → Bool
  | Event.load _ => true
  | Event.store _ => true
  | _ => false

/-- The calls of `malloc` in a trace, each with the address returned and the size asked
for, in order. -/
def allocs : List Event → List (Nat × Nat)
  | [] => []
  | Event.alloc a n :: evs => (a, n) :: allocs evs
  | _ :: evs => allocs evs

/-- The addresses `main` releases for the array `dato`, in the order of the release block
(main.c, lines 105-118): session by session, for each record of the session the buffers of
empleado.nombre, departamento.nombre, departamento.projecto and empresa.RazonSocial, then
the row array of the session; after the last session, the outer array. -/
def releaseOrder (dato : DatoPtr) : List Nat :=
  dato.cells.flatMap (fun row =>
    row.cells.flatMap (fun r =>
      [r.empleado.nombre.str.addr, r.departamento.nombre.str.addr,
       r.departamento.projecto.str.addr, r.empresa.RazonSocial.str.addr]) ++ [row.addr]) ++
  [dato.addr]

/-! ## Sample inputs -/

/-- A sample `%lf` conversion: the text glibc prints for the two sample salaries 5.0 and
6.0 (bit patterns `0x4014000000000000` and `0x4018000000000000`), and for zero. -/
def sampleLf (d : CDouble) : String :=
  if d.bits = 0x4014000000000000 then "5.000000"
  else if d.bits = 0x4018000000000000 then "6.000000"
  else "0.000000"

/-- A sample platform: 72 bytes to a `Relacion`, zeroed new blocks. -/
def samplePlatform : Platform :=
  { sizeofRelacion := 72
    sizeofRelacion_pos := by decide
    sizeofRelacion_lt := by decide
    row := ⟨0, []⟩
    rel := ⟨0, ⟨0, ⟨⟨0, ""⟩⟩⟩, ⟨0, ⟨⟨0, ""⟩⟩, ⟨⟨0, ""⟩⟩⟩, ⟨0, ⟨⟨0, ""⟩⟩, ⟨0⟩⟩⟩ }

/-- A sample record as typed in. -/
def sampleRelIn : RelIn :=
  { idRelacion := 7, idEmpresa := 3, RazonSocial := "ACME", idDepartamento := 4,
    depNombre := "Ventas", projecto := "Alfa", idEmpleado := -9, empNombre := "Ana",
    sueldo := ⟨0x4014000000000000⟩ }

/-- A second sample record as typed in. -/
def sampleRelIn2 : RelIn :=
  { idRelacion := 8, idEmpresa := 3, RazonSocial := "ACME", idDepartamento := 5,
    depNombre := "Compras", projecto := "Beta", idEmpleado := 10, empNombre := "Luis",
    sueldo := ⟨0x4018000000000000⟩ }

/-- A sample input: two sessions of one record each, and nothing behind them. -/
def sampleInput : List Token :=
  [Token.int 2, Token.int 1,
   Token.int 7, Token.int 3, Token.str "ACME", Token.int 4, Token.str "Ventas",
   Token.str "Alfa", Token.int (-9), Token.str "Ana", Token.dbl ⟨0x4014000000000000⟩,
   Token.int 8, Token.int 3, Token.str "ACME", Token.int 5, Token.str "Compras",
   Token.str "Beta", Token.int 10, Token.str "Luis", Token.dbl ⟨0x4018000000000000⟩]

/-- A fresh world with the given values waiting on standard input, where every stream
accepts output and the allocator grants the requests of at most `limit` bytes. -/
def worldOf (limit : Nat) (toks : List Token) : World :=
  { stdin := toks, files := fun _ => "", writable := fun _ => true, prompts := [],
    next := 0, grants := fun _ size => decide (size ≤ limit), log := [] }

/-- The world `worldOf limit toks` with standard output closed for writing. -/
def worldClosed (limit : Nat) (toks : List Token) : World :=
  { worldOf limit toks with writable := fun s => decide (s ≠ stdout) }

end BDE

/-! # `libs/proyecto/tui.h` -/

namespace TUI

/-! ## The declarations of the header -/

/-- The macro `NEW_SCREEN()` (tui.h, line 38): `printf` of a format without conversions,
which appends the format to standard output. -/
def NEW_SCREEN (out : String) : String := out ++ "\x1b[?1049h"

/-- The macro `CLOSE_SCREEN()` (tui.h, line 44). -/
def CLOSE_SCREEN (out : String) : String := out ++ "\x1b[?1049l"

/-- The macro `NORMAL` (tui.h, line 53). -/
def NORMAL : String := "\x1b[0m"

/-- The macro `BOLD` (tui.h, line 54). -/
def BOLD : String := "\x1b[1m"

/-- The macro `DIM` (tui.h, line 55). -/
def DIM : String := "\x1b[2m"

/-- The macro `ITALIC` (tui.h, line 56). -/
def ITALIC : String := "\x1b[3m"

/-- The macro `INVERSE` (tui.h, line 57). -/
def INVERSE : String := "\x1b[7m"

/-- The macro `HIDE_CURSOR` (tui.h, line 84). -/
def HIDE_CURSOR : String := "\x1b[?25l"

/-- The macro `SHOW_CURSOR` (tui.h, line 85). -/
def SHOW_CURSOR : String := "\x1b[?25h"

/-- The escape character `ESC` (code 27) followed by `body`: how the specification writes a
control sequence. -/
def escSeq (body : String) : String := String.singleton (Char.ofNat 27) ++ body

/-- The enumeration `input_type` (tui.h, lines 110-116). -/
inductive input_type
  | NUMERIC
  | ALPHA
  | ALPHANUMERIC
  | ANY
deriving DecidableEq, Repr

/-- The enumeration `text_mode` (tui.h, lines 119-123). -/
inductive text_mode
  | PLAIN
  | PASSWORD
deriving DecidableEq, Repr

/-- The enumeration `widget_type` (tui.h, lines 216-221). -/
inductive widget_type
  | INPUT
  | LIST
  | BUTTON
deriving DecidableEq, Repr

/-- The value of an `input_type` enumerator as a C `int`. -/
def input_type.toInt : input_type → Int
  | input_type.NUMERIC => 0
  | input_type.ALPHA => 1
  | input_type.ALPHANUMERIC => 2
  | input_type.ANY => 3

/-- The value of a `text_mode` enumerator as a C `int`. -/
def text_mode.toInt : text_mode → Int
  | text_mode.PLAIN => 0
  | text_mode.PASSWORD => 1

/-- The value of a `widget_type` enumerator as a C `int`. -/
def widget_type.toInt : widget_type → Int
  | widget_type.INPUT => 0
  | widget_type.LIST => 1
  | widget_type.BUTTON => 2

/-- One member of a struct of the header: its name and its C type. -/
structure Member where
  name : String
  type : String
deriving DecidableEq, Repr

/-- The members of `struct inputWidget` (tui.h, lines 102-140), in order. -/
def inputWidget : List Member :=
  [⟨"x", "int"⟩, ⟨"y", "int"⟩, ⟨"width", "int"⟩, ⟨"height", "int"⟩,
   ⟨"type", "enum input_type"⟩,
   ⟨"mode", "enum text_mode"⟩,
   ⟨"title", "wchar_t *"⟩,
   ⟨"on_accept", "Result (*)(wchar_t *)"⟩,
   ⟨"on_cancel", "Result (*)(void *)"⟩,
   ⟨"on_change", "Result (*)(wchar_t *)"⟩,
   ⟨"on_focus", "Result (*)(void *)"⟩,
   ⟨"on_unfocus", "Result (*)(void *)"⟩]

/-- The members of `struct listWidget` (tui.h, lines 146-174), in order. -/
def listWidget : List Member :=
  [⟨"x", "int"⟩, ⟨"y", "int"⟩, ⟨"width", "int"⟩, ⟨"height", "int"⟩,
   ⟨"title", "wchar_t *"⟩,
   ⟨"items", "LList *"⟩,
   ⟨"selected", "int"⟩,
   ⟨"on_accept", "Result (*)(void *)"⟩,
   ⟨"on_cancel", "Result (*)(void *)"⟩,
   ⟨"on_change", "Result (*)(void *)"⟩,
   ⟨"on_focus", "Result (*)(void *)"⟩,
   ⟨"on_unfocus", "Result (*)(void *)"⟩]

/-- The members of `struct buttonWidget` (tui.h, lines 180-196), in order. -/
def buttonWidget : List Member :=
  [⟨"x", "int"⟩, ⟨"y", "int"⟩, ⟨"width", "int"⟩, ⟨"height", "int"⟩,
   ⟨"title", "wchar_t *"⟩,
   ⟨"on_press", "Result (*)(void *)"⟩,
   ⟨"on_focus", "Result (*)(void *)"⟩,
   ⟨"on_unfocus", "Result (*)(void *)"⟩]

/-- The struct that a `widget_type` tag announces behind the pointer `Widget.widget`. -/
def widget_type.members : widget_type → List Member
  | widget_type.INPUT => inputWidget
  | widget_type.LIST => listWidget
  | widget_type.BUTTON => buttonWidget

/-- The struct `Widget` (tui.h, lines 213-225): the tag and the pointer to the widget. -/
structure Widget where
  type : widget_type
  widget : Nat
deriving DecidableEq, Repr

/-! ## The engine the specification describes

The header declares `focus` and the widget structs and implements nothing; the definitions
below follow sections 3, 4.2 and 4.3 of the specification. -/

/-- Modelled from the spec: the `Result` status of `proyecto.h`, which is not among the
sources: success, or one of the failure kinds of section 7. -/
inductive Result
  | OK
  | TerminalError
  | WidgetConfigError
  | InputReadError
deriving DecidableEq, Repr

/-- Modelled from the spec: a decoded key, as the event loop of section 4.4 hands it to a
widget; the key decoder is not among the sources. -/
inductive Key
  | char (c : Char)
  | backspace
  | enter
  | escape
  | up
  | down
deriving DecidableEq, Repr

/-- Modelled from the spec: the direction of `advance` (section 4.3). -/
inductive Direction
  | FORWARD
  | BACKWARD
deriving DecidableEq, Repr

/-- Modelled from the spec: one focus callback invocation, on the widget at position `i` of
the ring: `clearFocus` runs its `on_unfocus`, `setFocus` its `on_focus` (section 4.2). -/
inductive FocusCall
  | clearFocus (i : Nat)
  | setFocus (i : Nat)
deriving DecidableEq, Repr

/-- Modelled from the spec: the Focus Ring of sections 3 and 4.3, which the header only
announces through `focus(LList *widgets)`: the widgets in insertion order, the index of the
focused one, and the focus callbacks invoked so far. -/
structure FocusRing where
  widgets : List Widget
  current : Nat
  calls : List FocusCall
deriving DecidableEq, Repr

/-- Modelled from the spec: creation of a ring, the index reset to 0 (section 3). -/
def FocusRing.create (widgets : List Widget) : FocusRing :=
  { widgets := widgets, current := 0, calls := [] }

/-- Modelled from the spec: `advance(direction)` (section 4.3), absent from the sources: a
no-op on a ring with zero widgets; otherwise focus moves to the next / previous widget in
insertion order, wrapping cyclically, with `clearFocus` on the outgoing widget and then
`setFocus` on the incoming one. -/
def FocusRing.advance (d : Direction) (r : FocusRing) : FocusRing :=
  if r.widgets.length = 0 then r
  else
    let incoming :=
      match d with
      | Direction.FORWARD => (r.current + 1) % r.widgets.length
      | Direction.BACKWARD => (r.current + r.widgets.length - 1) % r.widgets.length
    { r with
      current := incoming
      calls := r.calls ++ [FocusCall.clearFocus r.current, FocusCall.setFocus incoming] }

/-- Modelled from the spec: `current()` (section 4.3): the focused widget, or `none` for the
empty ring. -/
def FocusRing.focused (r : FocusRing) : Option Widget :=
  r.widgets[r.current]?

/-- Modelled from the spec: the characters an input class accepts (section 3). -/
def input_type.accepts : input_type → Char → Bool
  | input_type.NUMERIC, c => c.isDigit
  | input_type.ALPHA, c => c.isAlpha
  | input_type.ALPHANUMERIC, c => c.isAlphanum
  | input_type.ANY, _ => true

/-- Modelled from the spec: the TextInput variant (section 3): the input class and display
mode of `struct inputWidget`, the width that bounds the buffer, and the buffer of entered
characters, which the header does not declare. -/
structure TextInput where
  type : input_type
  mode : text_mode
  width : Nat
  buffer : List Char
deriving DecidableEq, Repr

/-- Modelled from the spec: `handleKey` on a TextInput (section 4.2), absent from the
sources. A character of the input class is appended while the buffer is below `width`; any
other character is rejected without an error; backspace deletes the last character; Enter
runs `on_accept` on the buffer and clears it only when that signals success; Escape leaves
the buffer alone. The status returned is the one `handleKey` reports. -/
def TextInput.handleKey (on_accept : List Char → Result) (t : TextInput) :
    Key → Result × TextInput
  | Key.char c =>
    if t.type.accepts c && decide (t.buffer.length < t.width) then
      (Result.OK, { t with buffer := t.buffer ++ [c] })
    else (Result.OK, t)
  | Key.backspace => (Result.OK, { t with buffer := t.buffer.dropLast })
  | Key.enter =>
    if on_accept t.buffer = Result.OK then (Result.OK, { t with buffer := [] })
    else (Result.OK, t)
  | _ => (Result.OK, t)

/-- Modelled from the spec: typing a sequence of characters into a TextInput, one
`handleKey` per character; the statuses reported and the final widget. -/
def TextInput.type_chars (on_accept : List Char → Result) :
    TextInput → List Char → List Result × TextInput
  | t, [] => ([], t)
  | t, c :: cs =>
    let (res, t1) := t.handleKey on_accept (Key.char c)
    let (rs, t2) := TextInput.type_chars on_accept t1 cs
    (res :: rs, t2)

/-- Modelled from the spec: the SelectableList variant (section 3): the item labels and the
selected index (`int selected` of `struct listWidget`). -/
structure SelectableList where
  items : List String
  selected : Int
deriving DecidableEq, Repr

/-- Modelled from the spec: `handleKey` on a SelectableList (section 4.2), absent from the
sources: Up and Down move the selected index by one, clamped to the list, without
wraparound; the widget is disabled while the list is empty; no other key moves the
selection. -/
def SelectableList.handleKey (l : SelectableList) : Key → SelectableList
  | Key.up =>
    if l.items.length = 0 then l
    else { l with selected := max 0 (min (l.selected - 1) (l.items.length - 1)) }
  | Key.down =>
    if l.items.length = 0 then l
    else { l with selected := max 0 (min (l.selected + 1) (l.items.length - 1)) }
  | _ => l

/-- Modelled from the spec: the invariant of the selected index (section 3). -/
def SelectableList.valid (l : SelectableList) : Prop :=
  0 ≤ l.selected ∧ l.selected < l.items.length

end TUI

/-! # Theorems -/

namespace BDE

/-! ## `writeRelacion` -/

theorem render_relacion (fmtLf : CDouble → String) (r : Relacion) :
    render fmtLf "%i\n%i\n%s\n%i\n%s\n%s\n%i\n%s\n%lf\n".data
      [Arg.int r.idRelacion, Arg.int r.empresa.idEmpresa, Arg.str r.empresa.RazonSocial.str,
       Arg.int r.departamento.idDepartamento, Arg.str r.departamento.nombre.str,
       Arg.str r.departamento.projecto.str, Arg.int r.empleado.idEmpleado,
       Arg.str r.empleado.nombre.str, Arg.dbl r.empleado.sueldo] = relText fmtLf r := by
  apply String.ext
  simp [render, relText, linesText, relFields, String.join, String.singleton]

theorem writeRelacion_open (fmtLf : CDouble → String) (r : Relacion) (stream : Nat)
    (w : World) (h : stream ≠ 0) (hw : w.writable stream = true) :
    writeRelacion fmtLf r stream w =
      (1, { w with
            files := Function.update w.files stream (w.files stream ++ relText fmtLf r)
            log := w.log ++ [Event.load r.empresa.RazonSocial.str.addr,
                             Event.load r.departamento.nombre.str.addr,
                             Event.load r.departamento.projecto.str.addr,
                             Event.load r.empleado.nombre.str.addr] ++
                            [Event.write stream (relText fmtLf r)] }) := by
  unfold writeRelacion
  rw [if_neg h]
  unfold fprintf
  rw [if_pos hw, render_relacion]
  rfl

theorem writeRelacion_closed (fmtLf : CDouble → String) (r : Relacion) (stream : Nat)
    (w : World) (h : stream ≠ 0) (hw : w.writable stream = false) :
    writeRelacion fmtLf r stream w = (1, w) := by
  unfold writeRelacion
  rw [if_neg h]
  unfold fprintf
  simp [hw]

theorem relText_data (fmtLf : CDouble → String) (r : Relacion) :
    (relText fmtLf r).data =
      (fmtInt r.idRelacion).data ++ '\n' :: ((fmtInt r.empresa.idEmpresa).data ++ '\n' ::
      (r.empresa.RazonSocial.str.text.data ++ '\n' ::
      ((fmtInt r.departamento.idDepartamento).data ++ '\n' ::
      (r.departamento.nombre.str.text.data ++ '\n' ::
      (r.departamento.projecto.str.text.data ++ '\n' ::
      ((fmtInt r.empleado.idEmpleado).data ++ '\n' ::
      (r.empleado.nombre.str.text.data ++ '\n' ::
      ((fmtLf r.empleado.sueldo).data ++ ['\n'])))))))) := by
  simp [relText, linesText, relFields, String.join]

theorem append_ne_self (s t : String) (h : t.data ≠ []) : s ++ t ≠ s := by
  intro he
  have := congrArg String.data he
  simp only [String.data_append, List.append_right_eq_self] at this
  exact h this

theorem relText_data_ne_nil (fmtLf : CDouble → String) (r : Relacion) :
    (relText fmtLf r).data ≠ [] := by
  rw [relText_data]
  simp

/-- C2: `writeRelacion` fails only on the null check. For every record, stream and world,
the value returned is -1 when the stream is null and 1 otherwise (so never 0, and -1 only
for the null stream); the function returns -1 having written nothing exactly when the
stream is null. Besides, the streams and the trace are left as they were exactly when the
stream is null or does not accept output. -/
theorem writeRelacion_fails_iff_null (fmtLf : CDouble → String) (relacion : Relacion)
    (stream : Nat) (w : World) :
    (((writeRelacion fmtLf relacion stream w).1 = -1 ∧
        (writeRelacion fmtLf relacion stream w).2.files = w.files) ↔ stream = 0) ∧
    (writeRelacion fmtLf relacion stream w).1 = (if stream = 0 then -1 else 1) ∧
    ((writeRelacion fmtLf relacion stream w).1 = -1 ↔ stream = 0) ∧
    ((writeRelacion fmtLf relacion stream w).2.files = w.files ↔
      (stream = 0 ∨ w.writable stream = false)) ∧
    ((writeRelacion fmtLf relacion stream w).2.log = w.log ↔
      (stream = 0 ∨ w.writable stream = false)) := by
  by_cases h : stream = 0
  · subst h
    simp [writeRelacion]
  · cases hw : w.writable stream with
    | false =>
      rw [writeRelacion_closed fmtLf relacion stream w h hw]
      simp [h]
    | true =>
      rw [writeRelacion_open fmtLf relacion stream w h hw]
      have hne : Function.update w.files stream (w.files stream ++ relText fmtLf relacion)
          ≠ w.files := by
        intro he
        have := congrFun he stream
        rw [Function.update_same] at this
        exact append_ne_self _ _ (relText_data_ne_nil fmtLf relacion) this
      simp [h, hne]

theorem World.step_step (w : World) (r1 r2 : List Token) (o1 o2 : String)
    (p1 p2 : List String) (k1 k2 : Nat) (e1 e2 : List Event) :
    (w.step r1 o1 p1 k1 e1).step r2 o2 p2 k2 e2 =
      w.step r2 (o1 ++ o2) (p1 ++ p2) (k1 + k2) (e1 ++ e2) := by
  simp [World.step, String.append_assoc, Nat.add_assoc]

theorem World.step_id (w : World) : w.step w.stdin "" [] 0 [] = w := by
  cases w
  simp [World.step]

theorem World.step_ev (w : World) (r : List Token) (o : String) (ps : List String) (k : Nat)
    (evs : List Event) (e : Event) :
    (w.step r o ps k evs).ev e = w.step r o ps k (evs ++ [e]) := by
  simp [World.step, World.ev]

theorem step_free (w : World) (r : List Token) (o : String) (ps : List String) (k : Nat)
    (evs : List Event) (p : Nat) :
    free p (w.step r o ps k evs) = w.step r o ps k (evs ++ [Event.free p]) := by
  rw [free, World.step_ev]

theorem step_store (w : World) (r : List Token) (o : String) (ps : List String) (k : Nat)
    (evs : List Event) (p : Nat) (hp : p ≠ 0) :
    store p (w.step r o ps k evs) = Except.ok (w.step r o ps k (evs ++ [Event.store p])) := by
  rw [store, if_neg hp, World.step_ev]

theorem step_load (w : World) (r : List Token) (o : String) (ps : List String) (k : Nat)
    (evs : List Event) (p : Nat) (hp : p ≠ 0) :
    load p (w.step r o ps k evs) = Except.ok (w.step r o ps k (evs ++ [Event.load p])) := by
  rw [load, if_neg hp, World.step_ev]

theorem step_malloc (w : World) (r : List Token) (o : String) (ps : List String) (k : Nat)
    (evs : List Event) (size : Nat) (hg : w.grants (w.next + k + 1) size = true) :
    malloc size (w.step r o ps k evs) =
      (w.next + k + 1,
        w.step r o ps (k + 1) (evs ++ [Event.alloc (w.next + k + 1) size])) := by
  rw [Nat.add_assoc] at hg
  simp [World.step, malloc, hg, Nat.add_assoc]

theorem step_malloc_refused (w : World) (r : List Token) (o : String) (ps : List String)
    (k : Nat) (evs : List Event) (size : Nat) (hg : w.grants (w.next + k + 1) size = false) :
    malloc size (w.step r o ps k evs) =
      (0, w.step r o ps k (evs ++ [Event.alloc 0 size])) := by
  rw [Nat.add_assoc] at hg
  simp [World.step, malloc, hg, World.ev, Nat.add_assoc]

theorem step_input_int (prompt : String) (w : World) (v : Int) (rest : List Token)
    (o : String) (ps : List String) (k : Nat) (evs : List Event) :
    input prompt evaluarInt (w.step (Token.int v :: rest) o ps k evs) =
      Except.ok (v, w.step rest o (ps ++ [prompt]) k (evs ++ [Event.read (Token.int v)])) := by
  simp [input, evaluarInt, World.step]

theorem step_input_dbl (prompt : String) (w : World) (d : CDouble) (rest : List Token)
    (o : String) (ps : List String) (k : Nat) (evs : List Event) :
    input prompt evaluarDouble (w.step (Token.dbl d :: rest) o ps k evs) =
      Except.ok (d, w.step rest o (ps ++ [prompt]) k (evs ++ [Event.read (Token.dbl d)])) := by
  simp [input, evaluarDouble, World.step]

theorem step_input_str (prompt : String) (w : World) (s : String) (rest : List Token)
    (o : String) (ps : List String) (k : Nat) (evs : List Event)
    (hg : w.grants (w.next + k + 1) (s.length + 1) = true) :
    input prompt evaluarString (w.step (Token.str s :: rest) o ps k evs) =
      Except.ok (⟨⟨w.next + k + 1, s⟩⟩,
        w.step rest o (ps ++ [prompt]) (k + 1)
          (evs ++ [Event.read (Token.str s),
            Event.alloc (w.next + k + 1) (s.length + 1)])) := by
  rw [Nat.add_assoc] at hg
  simp [input, evaluarString, malloc, World.step, Nat.add_assoc, hg]

theorem step_writeRelacion (fmtLf : CDouble → String) (r : Relacion) (w : World)
    (rest : List Token) (o : String) (ps : List String) (k : Nat) (evs : List Event) :
    (writeRelacion fmtLf r stdout (w.step rest o ps k evs)).2 =
      w.step rest (o ++ relOut fmtLf (w.writable stdout) r) ps k
        (evs ++ (if w.writable stdout then
          [Event.load r.empresa.RazonSocial.str.addr,
           Event.load r.departamento.nombre.str.addr,
           Event.load r.departamento.projecto.str.addr,
           Event.load r.empleado.nombre.str.addr,
           Event.write stdout (relText fmtLf r)]
          else [])) := by
  cases hw : w.writable stdout with
  | false =>
    rw [writeRelacion_closed _ _ _ _ (by decide) (by simpa [World.step] using hw)]
    simp [relOut]
  | true =>
    rw [writeRelacion_open _ _ _ _ (by decide) (by simpa [World.step] using hw)]
    simp [World.step, String.append_assoc, relOut]

theorem step_inputRelacion (p : Nat) (old : Relacion) (w : World) (r : RelIn)
    (rest : List Token) (o : String) (ps : List String) (k : Nat) (evs : List Event)
    (hp : p ≠ 0)
    (hg : recGranted w.grants (w.next + k) r = true) :
    inputRelacion p old (w.step (r.tokens ++ rest) o ps k evs) =
      Except.ok (r.toRelacion (w.next + k),
        w.step rest o (ps ++ recPrompts) (k + 4) (evs ++ recInputLog p (w.next + k) r)) := by
  simp only [recGranted, Bool.and_eq_true] at hg
  obtain ⟨⟨⟨g1, g2⟩, g3⟩, g4⟩ := hg
  have g2 : w.grants (w.next + (k + 1) + 1) (r.depNombre.length + 1) = true := g2
  have g3 : w.grants (w.next + (k + 1 + 1) + 1) (r.projecto.length + 1) = true := g3
  have g4 : w.grants (w.next + (k + 1 + 1 + 1) + 1) (r.empNombre.length + 1) = true := g4
  unfold inputRelacion
  simp only [RelIn.tokens, List.cons_append, List.nil_append, step_input_int, step_store,
    step_input_dbl, bind, Except.bind, pure, Except.pure, hp, ne_eq, not_false_eq_true,
    step_input_str _ _ _ _ _ _ _ _ g1]
  rw [step_input_str _ _ _ _ _ _ _ _ g2]
  simp only [step_input_int, step_store, hp, ne_eq, not_false_eq_true]
  rw [step_input_str _ _ _ _ _ _ _ _ g3]
  simp only [step_input_int, step_store, hp, ne_eq, not_false_eq_true]
  rw [step_input_str _ _ _ _ _ _ _ _ g4]
  simp only [step_input_int, step_input_dbl, step_store, hp, ne_eq, not_false_eq_true]
  simp [RelIn.toRelacion, recPrompts, recInputLog, Nat.add_assoc]


/-- For a count that is not negative and fits an `int`, the size asked of `malloc` is the
exact product: the conversion to `size_t` and the multiplication do not wrap. -/
theorem sizeMul_exact (count : Int) (elem : Nat) (h0 : 0 ≤ count) (h1 : count < 2 ^ 31)
    (h2 : elem < 2 ^ 32) : sizeMul count elem = count.toNat * elem := by
  have hc : count % 2 ^ 64 = count := Int.emod_eq_of_lt h0 (by omega)
  have hn : count.toNat < 2 ^ 31 := by omega
  have hlt : count.toNat * elem < 2 ^ 31 * 2 ^ 32 := Nat.mul_lt_mul'' hn h2
  unfold sizeMul
  rw [hc, Nat.mod_eq_of_lt (by omega)]


/-! ## The loops of `main`, every allocation granted -/

theorem ok_bind {α β : Type} (a : α) (f : α → Except Fault β) :
    Except.bind (Except.ok a) f = f a := rfl

theorem getElem?_mid {α : Type} (pre : List α) (x : α) (post : List α) :
    (pre ++ x :: post)[pre.length]? = some x := by
  induction pre with
  | nil => simp
  | cons y ys ih => simpa using ih

theorem index_mid {α : Type} (pre : List α) (x : α) (post : List α) :
    index (pre ++ x :: post) pre.length = Except.ok x := by
  rw [index, getElem?_mid]

theorem set_mid {α : Type} (pre : List α) (x y : α) (post : List α) :
    (pre ++ x :: post).set pre.length y = pre ++ y :: post := by
  induction pre with
  | nil => rfl
  | cons z zs ih => simp

theorem alloc_loop (u : Platform) (M : Int) (a : Nat) (ha : a ≠ 0) (w : World)
    (rest : List Token) (o : String) (ps : List String) (dpost : List RowPtr) :
    ∀ (k : Nat) (olds dpre : List RowPtr) (i n : Nat) (evs : List Event),
      olds.length = k → i = dpre.length →
      allocGranted w.grants (sizeMul M u.sizeofRelacion) (w.next + n) k = true →
      forLoop (allocStep u M) i k
          (⟨a, dpre ++ olds ++ dpost⟩, w.step rest o ps n evs) =
        Except.ok (⟨a, dpre ++ allocRows u M (w.next + n) k ++ dpost⟩,
          w.step rest o ps (n + k)
            (evs ++ allocLog a (sizeMul M u.sizeofRelacion) (w.next + n) k)) := by
  intro k
  induction k with
  | zero =>
    intro olds dpre i n evs hk _ _
    have : olds = [] := List.length_eq_zero.mp hk
    subst this
    simp [forLoop, allocRows, allocLog]
  | succ k ih =>
    intro olds dpre i n evs hk hi hg
    obtain ⟨x, xs, rfl⟩ := List.exists_cons_of_length_eq_add_one hk
    have hlen : i < (dpre ++ x :: xs ++ dpost).length := by
      simp [hi]
    have hset : (dpre ++ x :: xs ++ dpost).set i
          ⟨w.next + n + 1, List.replicate M.toNat u.rel⟩ =
        (dpre ++ [⟨w.next + n + 1, List.replicate M.toNat u.rel⟩]) ++ xs ++ dpost := by
      simp [hi]
    simp only [allocGranted, Bool.and_eq_true] at hg
    have g := hg.1
    have hstep : allocStep u M i (⟨a, dpre ++ x :: xs ++ dpost⟩, w.step rest o ps n evs) =
        Except.ok
          (⟨a, (dpre ++ [⟨w.next + n + 1, List.replicate M.toNat u.rel⟩]) ++ xs ++ dpost⟩,
          w.step rest o ps (n + 1)
            (evs ++ [Event.alloc (w.next + n + 1) (sizeMul M u.sizeofRelacion),
              Event.store a])) := by
      simp only [allocStep, step_malloc _ _ _ _ _ _ _ g, step_store _ _ _ _ _ _ _ ha,
        if_pos hlen, hset, bind, Except.bind, pure, Except.pure]
      simp
    have h2 := ih xs (dpre ++ [RowPtr.mk (w.next + n + 1) (List.replicate M.toNat u.rel)])
      (i + 1) (n + 1)
      (evs ++ [Event.alloc (w.next + n + 1) (sizeMul M u.sizeofRelacion), Event.store a])
      (by simpa using hk) (by simp [hi]) hg.2
    rw [forLoop, hstep, ok_bind, h2]
    simp [allocRows, allocLog, Nat.add_assoc, Nat.add_comm 1 k]

theorem input_row (a p : Nat) (ha : a ≠ 0) (hp : p ≠ 0) (w : World) (rest : List Token)
    (o : String) (dpre dpost : List RowPtr) (post : List Relacion) :
    ∀ (rins : List RelIn) (olds pre : List Relacion) (j n : Nat) (ps : List String)
      (evs : List Event),
      olds.length = rins.length → j = pre.length →
      rowGranted w.grants (w.next + n) rins = true →
      forLoop (inputStep dpre.length) j rins.length
          (⟨a, dpre ++ ⟨p, pre ++ olds ++ post⟩ :: dpost⟩,
            w.step (rins.flatMap RelIn.tokens ++ rest) o ps n evs) =
        Except.ok (⟨a, dpre ++ ⟨p, pre ++ relsOf (w.next + n) rins ++ post⟩ :: dpost⟩,
          w.step rest o (ps ++ rins.flatMap (fun _ => recPrompts)) (n + 4 * rins.length)
            (evs ++ rowInputLog a p (w.next + n) rins)) := by
  intro rins
  induction rins with
  | nil =>
    intro olds pre j n ps evs hk _ _
    have : olds = [] := List.length_eq_zero.mp hk
    subst this
    simp [forLoop, relsOf, rowInputLog]
  | cons r rs ih =>
    intro olds pre j n ps evs hk hj hg
    obtain ⟨x, xs, rfl⟩ := List.exists_cons_of_length_eq_add_one hk
    simp only [rowGranted, Bool.and_eq_true] at hg
    have hrow : index (dpre ++ (⟨p, pre ++ x :: xs ++ post⟩ : RowPtr) :: dpost) dpre.length =
        Except.ok ⟨p, pre ++ x :: xs ++ post⟩ := index_mid _ _ _
    have hcell : index (pre ++ x :: xs ++ post) j = Except.ok x := by
      have := index_mid pre x (xs ++ post)
      simpa [hj] using this
    have hset : (pre ++ x :: xs ++ post).set j (r.toRelacion (w.next + n)) =
        (pre ++ [r.toRelacion (w.next + n)]) ++ xs ++ post := by
      simp [hj]
    have hin := step_inputRelacion p x w r (rs.flatMap RelIn.tokens ++ rest) o ps n
      (evs ++ [Event.load a]) hp hg.1
    have hstep : inputStep dpre.length j
          (⟨a, dpre ++ ⟨p, pre ++ x :: xs ++ post⟩ :: dpost⟩,
            w.step ((r :: rs).flatMap RelIn.tokens ++ rest) o ps n evs) =
        Except.ok
          (⟨a, dpre ++ ⟨p, (pre ++ [r.toRelacion (w.next + n)]) ++ xs ++ post⟩ :: dpost⟩,
          w.step (rs.flatMap RelIn.tokens ++ rest) o (ps ++ recPrompts) (n + 4)
            (evs ++ (Event.load a :: recInputLog p (w.next + n) r))) := by
      simp only [inputStep, loadRow, step_load _ _ _ _ _ _ _ ha, hrow, bind, Except.bind,
        pure, Except.pure, hcell, List.flatMap_cons]
      rw [List.append_assoc r.tokens, hin]
      simp only [hset, set_mid]
      simp [recInputLog]
    have h2 := ih xs (pre ++ [r.toRelacion (w.next + n)]) (j + 1) (n + 4) (ps ++ recPrompts)
      (evs ++ (Event.load a :: recInputLog p (w.next + n) r))
      (by simpa using hk) (by simp [hj]) hg.2
    rw [List.length_cons, forLoop, hstep, ok_bind, h2]
    simp [relsOf, rowInputLog, Nat.add_assoc, Nat.mul_add, Nat.add_comm 4]

theorem input_row0 (a p : Nat) (ha : a ≠ 0) (hp : p ≠ 0) (w : World) (rest : List Token)
    (o : String) (dpre dtail : List RowPtr) (rins : List RelIn) (olds : List Relacion)
    (i m n : Nat) (ps : List String) (evs : List Event)
    (ho : olds.length = rins.length) (hm : m = rins.length) (hi : i = dpre.length)
    (hg : rowGranted w.grants (w.next + n) rins = true) :
    forLoop (inputStep i) 0 m
        (⟨a, dpre ++ ⟨p, olds⟩ :: dtail⟩,
          w.step (rins.flatMap RelIn.tokens ++ rest) o ps n evs) =
      Except.ok (⟨a, dpre ++ ⟨p, relsOf (w.next + n) rins⟩ :: dtail⟩,
        w.step rest o (ps ++ rins.flatMap (fun _ => recPrompts)) (n + 4 * rins.length)
          (evs ++ rowInputLog a p (w.next + n) rins)) := by
  have h := input_row a p ha hp w rest o dpre dtail [] rins olds [] 0 n ps evs ho rfl hg
  subst hm hi
  simpa using h

theorem input_rows (u : Platform) (M : Int) (a : Nat) (ha : a ≠ 0) (w : World)
    (rest : List Token) (o : String) (dpost : List RowPtr) :
    ∀ (rows : List (List RelIn)) (q : Nat) (dpre : List RowPtr) (i n : Nat)
      (ps : List String) (evs : List Event),
      (∀ rins ∈ rows, rins.length = M.toNat) → i = dpre.length →
      rowsGranted w.grants (w.next + n) rows = true →
      forLoop (fun i => forLoop (inputStep i) 0 M.toNat) i rows.length
          (⟨a, dpre ++ allocRows u M q rows.length ++ dpost⟩,
            w.step (rows.flatten.flatMap RelIn.tokens ++ rest) o ps n evs) =
        Except.ok (⟨a, dpre ++ rowsOf (q + 1) (w.next + n) rows ++ dpost⟩,
          w.step rest o (ps ++ rows.flatten.flatMap (fun _ => recPrompts))
            (n + 4 * rows.flatten.length) (evs ++ inputLog a (q + 1) (w.next + n) rows)) := by
  intro rows
  induction rows with
  | nil =>
    intro q dpre i n ps evs _ _ _
    simp [forLoop, allocRows, rowsOf, inputLog]
  | cons rins rs ih =>
    intro q dpre i n ps evs hm hi hg
    simp only [rowsGranted, Bool.and_eq_true] at hg
    have hm1 : rins.length = M.toNat := hm rins (List.mem_cons_self _ _)
    have hstep := input_row0 a (q + 1) ha (by omega) w
      (rs.flatten.flatMap RelIn.tokens ++ rest) o dpre
      (allocRows u M (q + 1) rs.length ++ dpost) rins (List.replicate M.toNat u.rel) i M.toNat n
      ps evs (by simp [hm1]) hm1.symm hi hg.1
    have h2 := ih (q + 1) (dpre ++ [RowPtr.mk (q + 1) (relsOf (w.next + n) rins)]) (i + 1)
      (n + 4 * rins.length) (ps ++ rins.flatMap (fun _ => recPrompts))
      (evs ++ rowInputLog a (q + 1) (w.next + n) rins)
      (fun x hx => hm x (List.mem_cons_of_mem _ hx)) (by simp [hi])
      (by rw [← Nat.add_assoc]; exact hg.2)
    simp only [List.length_cons, forLoop, allocRows, List.flatten_cons, List.flatMap_append,
      List.append_assoc, List.cons_append, List.nil_append, List.singleton_append] at hstep h2 ⊢
    rw [hstep, ok_bind, h2]
    simp [rowsOf, inputLog, Nat.add_assoc, Nat.mul_add]

/-! ### The output loops -/

theorem foldl_append_acc (l : List String) (acc : String) :
    l.foldl (fun r s => r ++ s) acc = acc ++ l.foldl (fun r s => r ++ s) "" := by
  induction l generalizing acc with
  | nil => simp
  | cons x xs ih =>
    simp only [List.foldl_cons]
    rw [ih (acc ++ x), ih ("" ++ x)]
    simp [String.append_assoc]

theorem join_cons (x : String) (l : List String) : String.join (x :: l) = x ++ String.join l := by
  simp only [String.join, List.foldl_cons]
  rw [foldl_append_acc]
  simp

theorem join_append (l1 l2 : List String) :
    String.join (l1 ++ l2) = String.join l1 ++ String.join l2 := by
  induction l1 with
  | nil => simp [String.join]
  | cons x xs ih => simp [join_cons, ih, String.append_assoc]

theorem write_row (fmtLf : CDouble → String) (dato : DatoPtr) (i : Nat) (row : RowPtr)
    (hrow : index dato.cells i = Except.ok row) (hd : dato.addr ≠ 0) (hr : row.addr ≠ 0)
    (w : World) (rest : List Token) (ps : List String) (n : Nat) (post : List Relacion) :
    ∀ (rs pre : List Relacion) (j : Nat) (o : String) (evs : List Event),
      row.cells = pre ++ rs ++ post → j = pre.length →
      forLoop (writeStep fmtLf dato i) j rs.length (w.step rest o ps n evs) =
        Except.ok
          (w.step rest (o ++ String.join (rs.map (relOut fmtLf (w.writable stdout)))) ps n
            (evs ++ rs.flatMap (relWriteLog fmtLf (w.writable stdout) dato.addr row.addr))) := by
  intro rs
  induction rs with
  | nil =>
    intro pre j o evs _ _
    simp [forLoop, String.join]
  | cons r rs ih =>
    intro pre j o evs hc hj
    have hcell : index row.cells j = Except.ok r := by
      rw [hc, hj, List.append_assoc, List.cons_append]
      exact index_mid _ _ _
    have hstep : writeStep fmtLf dato i j (w.step rest o ps n evs) =
        Except.ok (w.step rest (o ++ relOut fmtLf (w.writable stdout) r) ps n
          (evs ++ relWriteLog fmtLf (w.writable stdout) dato.addr row.addr r)) := by
      simp only [writeStep, loadRow, loadRel, step_load _ _ _ _ _ _ _ hd,
        step_load _ _ _ _ _ _ _ hr, hrow, hcell, bind, Except.bind, pure, Except.pure,
        step_writeRelacion]
      simp [relWriteLog]
    have h2 := ih (pre ++ [r]) (j + 1) (o ++ relOut fmtLf (w.writable stdout) r)
      (evs ++ relWriteLog fmtLf (w.writable stdout) dato.addr row.addr r)
      (by simp [hc]) (by simp [hj])
    rw [List.length_cons, forLoop, hstep, ok_bind, h2]
    simp [join_cons, String.append_assoc]

theorem write_rows (fmtLf : CDouble → String) (dato : DatoPtr) (hd : dato.addr ≠ 0)
    (m : Nat) (w : World) (rest : List Token) (ps : List String) (n : Nat)
    (dpost : List RowPtr) :
    ∀ (rows dpre : List RowPtr) (i : Nat) (o : String) (evs : List Event),
      dato.cells = dpre ++ rows ++ dpost → i = dpre.length →
      (∀ row ∈ rows, row.cells.length = m ∧ (m ≠ 0 → row.addr ≠ 0)) →
      forLoop (fun i => forLoop (writeStep fmtLf dato i) 0 m) i rows.length
          (w.step rest o ps n evs) =
        Except.ok (w.step rest (o ++ writeText fmtLf (w.writable stdout) rows) ps n
          (evs ++ writeLog fmtLf (w.writable stdout) dato.addr rows)) := by
  intro rows
  induction rows with
  | nil =>
    intro dpre i o evs _ _ _
    simp [forLoop, writeText, writeLog, String.join]
  | cons row rows ih =>
    intro dpre i o evs hc hi hm
    have hrow : index dato.cells i = Except.ok row := by
      rw [hc, hi, List.append_assoc, List.cons_append]
      exact index_mid _ _ _
    obtain ⟨hm1, hm2⟩ := hm row (List.mem_cons_self _ _)
    have hstep : forLoop (writeStep fmtLf dato i) 0 m (w.step rest o ps n evs) =
        Except.ok
          (w.step rest (o ++ String.join (row.cells.map (relOut fmtLf (w.writable stdout))))
            ps n
            (evs ++ row.cells.flatMap
              (relWriteLog fmtLf (w.writable stdout) dato.addr row.addr))) := by
      by_cases h0 : m = 0
      · have hnil : row.cells = [] := List.length_eq_zero.mp (hm1.trans h0)
        subst h0
        simp [forLoop, hnil, String.join]
      · have := write_row fmtLf dato i row hrow hd (hm2 h0) w rest ps n [] row.cells [] 0 o evs
          (by simp) rfl
        rwa [hm1] at this
    have h2 := ih (dpre ++ [row]) (i + 1)
      (o ++ String.join (row.cells.map (relOut fmtLf (w.writable stdout))))
      (evs ++ row.cells.flatMap (relWriteLog fmtLf (w.writable stdout) dato.addr row.addr))
      (by simp [hc]) (by simp [hi]) (fun x hx => hm x (List.mem_cons_of_mem _ hx))
    rw [List.length_cons, forLoop, hstep, ok_bind, h2]
    simp [writeText, writeLog, join_append, String.append_assoc]

/-! ### The release loops -/

theorem free_row (dato : DatoPtr) (i : Nat) (row : RowPtr)
    (hrow : index dato.cells i = Except.ok row) (hd : dato.addr ≠ 0) (hr : row.addr ≠ 0)
    (w : World) (rest : List Token) (o : String) (ps : List String) (n : Nat)
    (post : List Relacion) :
    ∀ (rs pre : List Relacion) (j : Nat) (evs : List Event),
      row.cells = pre ++ rs ++ post → j = pre.length →
      forLoop (freeStep dato i) j rs.length (w.step rest o ps n evs) =
        Except.ok (w.step rest o ps n (evs ++ rs.flatMap (relFreeLog dato.addr row.addr))) := by
  intro rs
  induction rs with
  | nil =>
    intro pre j evs _ _
    simp [forLoop]
  | cons r rs ih =>
    intro pre j evs hc hj
    have hcell : index row.cells j = Except.ok r := by
      rw [hc, hj, List.append_assoc, List.cons_append]
      exact index_mid _ _ _
    have hstep : freeStep dato i j (w.step rest o ps n evs) =
        Except.ok (w.step rest o ps n (evs ++ relFreeLog dato.addr row.addr r)) := by
      simp only [freeStep, loadRow, loadRel, step_load _ _ _ _ _ _ _ hd,
        step_load _ _ _ _ _ _ _ hr, hrow, hcell, bind, Except.bind, pure, Except.pure,
        step_free]
      simp [relFreeLog]
    have h2 := ih (pre ++ [r]) (j + 1) (evs ++ relFreeLog dato.addr row.addr r)
      (by simp [hc]) (by simp [hj])
    rw [List.length_cons, forLoop, hstep, ok_bind, h2]
    simp

theorem free_rows (dato : DatoPtr) (hd : dato.addr ≠ 0) (m : Nat) (w : World)
    (rest : List Token) (o : String) (ps : List String) (n : Nat) (dpost : List RowPtr) :
    ∀ (rows dpre : List RowPtr) (i : Nat) (evs : List Event),
      dato.cells = dpre ++ rows ++ dpost → i = dpre.length →
      (∀ row ∈ rows, row.cells.length = m ∧ (m ≠ 0 → row.addr ≠ 0)) →
      forLoop
          (fun i w => Except.bind (forLoop (freeStep dato i) 0 m w) (freeRowStep dato i)) i
          rows.length (w.step rest o ps n evs) =
        Except.ok (w.step rest o ps n (evs ++ freeRowsLog dato.addr rows)) := by
  intro rows
  induction rows with
  | nil =>
    intro dpre i evs _ _ _
    simp [forLoop, freeRowsLog]
  | cons row rows ih =>
    intro dpre i evs hc hi hm
    have hrow : index dato.cells i = Except.ok row := by
      rw [hc, hi, List.append_assoc, List.cons_append]
      exact index_mid _ _ _
    obtain ⟨hm1, hm2⟩ := hm row (List.mem_cons_self _ _)
    have hstep : forLoop (freeStep dato i) 0 m (w.step rest o ps n evs) =
        Except.ok (w.step rest o ps n
          (evs ++ row.cells.flatMap (relFreeLog dato.addr row.addr))) := by
      by_cases h0 : m = 0
      · have hnil : row.cells = [] := List.length_eq_zero.mp (hm1.trans h0)
        subst h0
        simp [forLoop, hnil]
      · have := free_row dato i row hrow hd (hm2 h0) w rest o ps n [] row.cells [] 0 evs
          (by simp) rfl
        rwa [hm1] at this
    have hfr : freeRowStep dato i
          (w.step rest o ps n (evs ++ row.cells.flatMap (relFreeLog dato.addr row.addr))) =
        Except.ok (w.step rest o ps n
          (evs ++ (row.cells.flatMap (relFreeLog dato.addr row.addr) ++
            [Event.load dato.addr, Event.free row.addr]))) := by
      simp only [freeRowStep, loadRow, step_load _ _ _ _ _ _ _ hd, hrow, bind, Except.bind,
        pure, Except.pure, step_free]
      simp
    have h2 := ih (dpre ++ [row]) (i + 1)
      (evs ++ (row.cells.flatMap (relFreeLog dato.addr row.addr) ++
        [Event.load dato.addr, Event.free row.addr])) (by simp [hc]) (by simp [hi])
      (fun x hx => hm x (List.mem_cons_of_mem _ hx))
    rw [List.length_cons, forLoop]
    simp only [hstep, ok_bind, hfr]
    rw [h2]
    simp [freeRowsLog]


/-! ### The whole of `main`, every allocation granted -/

theorem relsOf_length (rins : List RelIn) : ∀ b, (relsOf b rins).length = rins.length := by
  induction rins with
  | nil => intro b; rfl
  | cons r rs ih => intro b; simp [relsOf, ih]

theorem rowsOf_length (recs : List (List RelIn)) :
    ∀ p b, (rowsOf p b recs).length = recs.length := by
  induction recs with
  | nil => intro p b; rfl
  | cons r rs ih => intro p b; simp [rowsOf, ih]

theorem rowsOf_cells_length (m : Nat) (recs : List (List RelIn))
    (hm : ∀ rins ∈ recs, rins.length = m) :
    ∀ p b, ∀ row ∈ rowsOf p b recs, row.cells.length = m ∧ p ≤ row.addr := by
  induction recs with
  | nil => intro p b row h; simp [rowsOf] at h
  | cons r rs ih =>
    intro p b row h
    simp only [rowsOf, List.mem_cons] at h
    rcases h with rfl | h
    · exact ⟨by simpa [relsOf_length] using hm r (List.mem_cons_self _ _), Nat.le_refl _⟩
    · have := ih (fun x hx => hm x (List.mem_cons_of_mem _ hx)) _ _ row h
      exact ⟨this.1, by omega⟩

theorem main_step (fmtLf : CDouble → String) (u : Platform) (w : World) (N M : Int)
    (recs : List (List RelIn)) (rest : List Token) (o : String) (ps : List String) (n : Nat)
    (evs : List Event)
    (hN : recs.length = N.toNat) (hM : ∀ rins ∈ recs, rins.length = M.toNat)
    (hg : allGranted w.grants u (w.next + n) N M recs = true) :
    main fmtLf u
        (w.step (Token.int N :: Token.int M :: (recs.flatten.flatMap RelIn.tokens ++ rest))
          o ps n evs) =
      Except.ok (0, w.step rest
        (o ++ writeText fmtLf (w.writable stdout) (datoOf (w.next + n) recs).cells)
        (ps ++ ("Ingrese el numero de sesiones: " :: "Ingrese el numero de relaciones: " ::
          recs.flatten.flatMap (fun _ => recPrompts)))
        (n + (1 + recs.length + 4 * recs.flatten.length))
        (evs ++ mainLog fmtLf u (w.writable stdout) (w.next + n) N M recs)) := by
  have ha : w.next + n + 1 ≠ 0 := by omega
  simp only [allGranted, Bool.and_eq_true] at hg
  obtain ⟨⟨g0, g1⟩, g2⟩ := hg
  rw [hN] at g1 g2
  have halloc := alloc_loop u M (w.next + n + 1) ha w
    (recs.flatten.flatMap RelIn.tokens ++ rest) o
    (ps ++ ["Ingrese el numero de sesiones: "] ++ ["Ingrese el numero de relaciones: "]) []
    N.toNat (List.replicate N.toNat u.row) [] 0 (n + 1)
    (evs ++ [Event.read (Token.int N)] ++ [Event.alloc (w.next + n + 1) (sizeMul N 8)] ++
      [Event.read (Token.int M)]) (by simp) rfl g1
  have hinput := input_rows u M (w.next + n + 1) ha w rest o [] recs (w.next + (n + 1)) [] 0
    (n + 1 + N.toNat)
    (ps ++ ["Ingrese el numero de sesiones: "] ++ ["Ingrese el numero de relaciones: "])
    (evs ++ [Event.read (Token.int N)] ++ [Event.alloc (w.next + n + 1) (sizeMul N 8)] ++
      [Event.read (Token.int M)] ++
      allocLog (w.next + n + 1) (sizeMul M u.sizeofRelacion) (w.next + (n + 1)) N.toNat)
    hM rfl (by rw [← Nat.add_assoc, ← Nat.add_assoc]; exact g2)
  simp only [List.nil_append, List.append_nil] at halloc hinput
  rw [hN] at hinput
  unfold main
  simp only [step_input_int, bind, Except.bind, pure, Except.pure,
    step_malloc _ _ _ _ _ _ _ g0, halloc, hinput]
  have e1 : w.next + (n + 1) + 1 = w.next + n + 2 := by omega
  have e2 : w.next + (n + 1 + N.toNat) = w.next + n + 1 + recs.length := by omega
  have e3 : w.next + (n + 1) = w.next + n + 1 := by omega
  rw [e1, e2, e3]
  have hlen : (rowsOf (w.next + n + 2) (w.next + n + 1 + recs.length) recs).length = N.toNat := by
    rw [rowsOf_length, hN]
  have hcells : ∀ row ∈ rowsOf (w.next + n + 2) (w.next + n + 1 + recs.length) recs,
      row.cells.length = M.toNat ∧ (M.toNat ≠ 0 → row.addr ≠ 0) := by
    intro row hrow
    have := rowsOf_cells_length M.toNat recs hM (w.next + n + 2)
      (w.next + n + 1 + recs.length) row hrow
    exact ⟨this.1, fun _ => by omega⟩
  have hwrite := write_rows fmtLf
    ⟨w.next + n + 1, rowsOf (w.next + n + 2) (w.next + n + 1 + recs.length) recs⟩ ha M.toNat w
    rest
    (ps ++ ["Ingrese el numero de sesiones: "] ++ ["Ingrese el numero de relaciones: "] ++
      recs.flatten.flatMap fun _ => recPrompts)
    (n + 1 + N.toNat + 4 * recs.flatten.length) []
    (rowsOf (w.next + n + 2) (w.next + n + 1 + recs.length) recs) [] 0 o
    (evs ++ [Event.read (Token.int N)] ++ [Event.alloc (w.next + n + 1) (sizeMul N 8)] ++
      [Event.read (Token.int M)] ++
      allocLog (w.next + n + 1) (sizeMul M u.sizeofRelacion) (w.next + n + 1) N.toNat ++
      inputLog (w.next + n + 1) (w.next + n + 2) (w.next + n + 1 + recs.length) recs)
    (by simp) rfl hcells
  have hfree := free_rows
    ⟨w.next + n + 1, rowsOf (w.next + n + 2) (w.next + n + 1 + recs.length) recs⟩ ha M.toNat w
    rest
    (o ++ writeText fmtLf (w.writable stdout)
      (rowsOf (w.next + n + 2) (w.next + n + 1 + recs.length) recs))
    (ps ++ ["Ingrese el numero de sesiones: "] ++ ["Ingrese el numero de relaciones: "] ++
      recs.flatten.flatMap fun _ => recPrompts)
    (n + 1 + N.toNat + 4 * recs.flatten.length) []
    (rowsOf (w.next + n + 2) (w.next + n + 1 + recs.length) recs) [] 0
    (evs ++ [Event.read (Token.int N)] ++ [Event.alloc (w.next + n + 1) (sizeMul N 8)] ++
      [Event.read (Token.int M)] ++
      allocLog (w.next + n + 1) (sizeMul M u.sizeofRelacion) (w.next + n + 1) N.toNat ++
      inputLog (w.next + n + 1) (w.next + n + 2) (w.next + n + 1 + recs.length) recs ++
      writeLog fmtLf (w.writable stdout) (w.next + n + 1)
        (rowsOf (w.next + n + 2) (w.next + n + 1 + recs.length) recs))
    (by simp) rfl hcells
  rw [hlen] at hwrite hfree
  simp only [Except.bind] at hfree
  simp only [hwrite, hfree, step_free]
  have e4 : n + 1 + N.toNat + 4 * recs.flatten.length =
      n + (1 + recs.length + 4 * recs.flatten.length) := by omega
  rw [e4]
  simp [datoOf, mainLog, setupLog, freeLog, ← hN, Nat.add_assoc]

theorem main_run (fmtLf : CDouble → String) (u : Platform) (w : World) (N M : Int)
    (recs : List (List RelIn)) (rest : List Token)
    (hN : recs.length = N.toNat) (hM : ∀ rins ∈ recs, rins.length = M.toNat)
    (hg : allGranted w.grants u w.next N M recs = true)
    (hin : w.stdin = Token.int N :: Token.int M :: (recs.flatten.flatMap RelIn.tokens ++ rest)) :
    main fmtLf u w =
      Except.ok (0, w.step rest (writeText fmtLf (w.writable stdout) (datoOf w.next recs).cells)
        ("Ingrese el numero de sesiones: " :: "Ingrese el numero de relaciones: " ::
          recs.flatten.flatMap (fun _ => recPrompts))
        (1 + recs.length + 4 * recs.flatten.length)
        (mainLog fmtLf u (w.writable stdout) w.next N M recs)) := by
  have h := main_step fmtLf u w N M recs rest "" [] 0 [] hN hM hg
  rw [← hin, World.step_id] at h
  simpa using h


/-! ### What reaches standard output -/

theorem linesText_append (l1 l2 : List String) :
    linesText (l1 ++ l2) = linesText l1 ++ linesText l2 := by
  simp [linesText, join_append]

theorem relText_toRelacion (fmtLf : CDouble → String) (r : RelIn) (b : Nat) :
    relText fmtLf (r.toRelacion b) = linesText (r.tokens.map (Token.text fmtLf)) := by
  rfl

theorem join_relsOf (fmtLf : CDouble → String) (rins : List RelIn) :
    ∀ b, String.join ((relsOf b rins).map (relOut fmtLf true)) =
      linesText ((rins.flatMap RelIn.tokens).map (Token.text fmtLf)) := by
  induction rins with
  | nil => intro b; rfl
  | cons r rs ih =>
    intro b
    simp only [relsOf, List.map_cons, join_cons, ih, relOut, if_true, relText_toRelacion,
      List.flatMap_cons, List.map_append, linesText_append]

theorem writeText_rowsOf (fmtLf : CDouble → String) (recs : List (List RelIn)) :
    ∀ p b, writeText fmtLf true (rowsOf p b recs) =
      linesText ((recs.flatten.flatMap RelIn.tokens).map (Token.text fmtLf)) := by
  induction recs with
  | nil => intro p b; rfl
  | cons rins rs ih =>
    intro p b
    have h := ih (p + 1) (b + 4 * rins.length)
    unfold writeText at h ⊢
    simp only [rowsOf, List.flatMap_cons, join_append, join_relsOf, h, List.flatten_cons,
      List.flatMap_append, List.map_append, linesText_append]

theorem join_eq_empty (l : List String) (h : ∀ s ∈ l, s = "") : String.join l = "" := by
  induction l with
  | nil => rfl
  | cons x xs ih =>
    rw [join_cons, h x (List.mem_cons_self _ _),
      ih (fun s hs => h s (List.mem_cons_of_mem _ hs))]
    rfl

theorem writeText_closed (fmtLf : CDouble → String) (rows : List RowPtr) :
    writeText fmtLf false rows = "" := by
  apply join_eq_empty
  intro s hs
  simp only [List.mem_flatMap, List.mem_map, relOut] at hs
  obtain ⟨_, _, _, _, h⟩ := hs
  simpa using h.symm

/-! ### Reads and writes of a run, in order -/

theorem ioEvents_append (l1 l2 : List Event) :
    ioEvents (l1 ++ l2) = ioEvents l1 ++ ioEvents l2 := by
  induction l1 with
  | nil => rfl
  | cons e es ih => cases e <;> simp [ioEvents, ih]

theorem ioEvents_allocLog (a size : Nat) : ∀ k b, ioEvents (allocLog a size b k) = [] := by
  intro k
  induction k with
  | zero => intro b; rfl
  | succ k ih => intro b; simp [allocLog, ioEvents, ih]

theorem ioEvents_recInputLog (p b : Nat) (r : RelIn) :
    ioEvents (recInputLog p b r) = r.tokens.map Event.read := by
  rfl

theorem ioEvents_rowInputLog (a p : Nat) (rins : List RelIn) :
    ∀ b, ioEvents (rowInputLog a p b rins) = (rins.flatMap RelIn.tokens).map Event.read := by
  induction rins with
  | nil => intro b; rfl
  | cons r rs ih =>
    intro b
    rw [rowInputLog]
    show ioEvents (recInputLog p b r ++ rowInputLog a p (b + 4) rs) = _
    rw [ioEvents_append, ioEvents_recInputLog, ih, List.flatMap_cons, List.map_append]

theorem ioEvents_inputLog (a : Nat) (recs : List (List RelIn)) :
    ∀ p b, ioEvents (inputLog a p b recs) =
      (recs.flatten.flatMap RelIn.tokens).map Event.read := by
  induction recs with
  | nil => intro p b; rfl
  | cons rins rs ih =>
    intro p b
    rw [inputLog, ioEvents_append, ioEvents_rowInputLog, ih, List.flatten_cons,
      List.flatMap_append, List.map_append]

theorem ioEvents_relsOf (fmtLf : CDouble → String) (a p : Nat) (rins : List RelIn) :
    ∀ b, ioEvents ((relsOf b rins).flatMap (relWriteLog fmtLf true a p)) =
      rins.map (fun r => Event.write stdout (linesText (r.tokens.map (Token.text fmtLf)))) := by
  induction rins with
  | nil => intro b; rfl
  | cons r rs ih =>
    intro b
    rw [relsOf, List.flatMap_cons, ioEvents_append, ih, List.map_cons]
    rfl

theorem ioEvents_writeLog (fmtLf : CDouble → String) (a : Nat) (recs : List (List RelIn)) :
    ∀ p b, ioEvents (writeLog fmtLf true a (rowsOf p b recs)) =
      recs.flatten.map
        (fun r => Event.write stdout (linesText (r.tokens.map (Token.text fmtLf)))) := by
  induction recs with
  | nil => intro p b; rfl
  | cons rins rs ih =>
    intro p b
    have h := ih (p + 1) (b + 4 * rins.length)
    unfold writeLog at h ⊢
    rw [rowsOf, List.flatMap_cons, ioEvents_append, h, ioEvents_relsOf, List.flatten_cons,
      List.map_append]

theorem ioEvents_relFree (a p : Nat) (cells : List Relacion) :
    ioEvents (cells.flatMap (relFreeLog a p)) = [] := by
  induction cells with
  | nil => rfl
  | cons r rs ih => rw [List.flatMap_cons, ioEvents_append, ih]; rfl

theorem ioEvents_freeRowsLog (a : Nat) (rows : List RowPtr) :
    ioEvents (freeRowsLog a rows) = [] := by
  induction rows with
  | nil => rfl
  | cons row rs ih =>
    unfold freeRowsLog at ih ⊢
    rw [List.flatMap_cons, ioEvents_append, ih, ioEvents_append, ioEvents_relFree]
    rfl

theorem ioEvents_mainLog (fmtLf : CDouble → String) (u : Platform) (b : Nat) (N M : Int)
    (recs : List (List RelIn)) :
    ioEvents (mainLog fmtLf u true b N M recs) =
      (Token.int N :: Token.int M :: recs.flatten.flatMap RelIn.tokens).map Event.read ++
        recs.flatten.map
          (fun r => Event.write stdout (linesText (r.tokens.map (Token.text fmtLf)))) := by
  have hsetup : ioEvents (setupLog u b N M recs) =
      (Token.int N :: Token.int M :: recs.flatten.flatMap RelIn.tokens).map Event.read := by
    show Event.read (Token.int N) :: Event.read (Token.int M) ::
      ioEvents (allocLog (b + 1) (sizeMul M u.sizeofRelacion) (b + 1) recs.length ++
        inputLog (b + 1) (b + 2) (b + 1 + recs.length) recs) = _
    rw [ioEvents_append, ioEvents_allocLog, ioEvents_inputLog]
    rfl
  have hfree : ioEvents (freeLog (datoOf b recs)) = [] := by
    rw [freeLog, ioEvents_append, ioEvents_freeRowsLog]
    rfl
  rw [mainLog, ioEvents_append, ioEvents_append, hsetup, hfree, List.append_nil]
  unfold datoOf
  rw [ioEvents_writeLog]

theorem flatten_length_of_shape (m : Nat) (recs : List (List RelIn))
    (hM : ∀ rins ∈ recs, rins.length = m) : recs.flatten.length = recs.length * m := by
  induction recs with
  | nil => simp
  | cons r rs ih =>
    have h1 := hM r (List.mem_cons_self _ _)
    have h2 := ih (fun x hx => hM x (List.mem_cons_of_mem _ hx))
    simp [h1, h2, Nat.add_mul, Nat.add_comm]

/-! ### Runs that end in a fault -/

theorem main_null_dato (fmtLf : CDouble → String) (u : Platform) (w : World) (N M : Int)
    (rest : List Token) (hN : 0 < N)
    (hin : w.stdin = Token.int N :: Token.int M :: rest)
    (hg : w.grants (w.next + 1) (sizeMul N 8) = false) :
    main fmtLf u w = Except.error Fault.null := by
  obtain ⟨n, hn⟩ : ∃ n, N.toNat = n + 1 := ⟨N.toNat - 1, by omega⟩
  have h0 := World.step_id w
  rw [hin] at h0
  rw [← h0]
  have hg0 : w.grants (w.next + 0 + 1) (sizeMul N 8) = false := by simpa using hg
  unfold main
  simp only [step_input_int, bind, Except.bind, pure, Except.pure,
    step_malloc_refused w _ _ _ 0 _ _ hg0, hn, forLoop, allocStep, store]
  simp


/-! ### The releases of a run -/

theorem frees_append (xs ys : List Event) : frees (xs ++ ys) = frees xs ++ frees ys := by
  induction xs with
  | nil => rfl
  | cons e es ih => cases e <;> simp [frees, ih]

theorem mem_frees {x : Nat} {evs : List Event} : x ∈ frees evs ↔ Event.free x ∈ evs := by
  induction evs with
  | nil => simp [frees]
  | cons e es ih => cases e <;> simp [frees, ih]

theorem frees_allocLog (a size : Nat) : ∀ k b, frees (allocLog a size b k) = [] := by
  intro k
  induction k with
  | zero => intro b; rfl
  | succ k ih => intro b; simp [allocLog, frees, ih]

theorem frees_rowInputLog (a p : Nat) (rins : List RelIn) :
    ∀ b, frees (rowInputLog a p b rins) = [] := by
  induction rins with
  | nil => intro b; rfl
  | cons r rs ih => intro b; simp [rowInputLog, recInputLog, frees, frees_append, ih]

theorem frees_inputLog (a : Nat) (recs : List (List RelIn)) :
    ∀ p b, frees (inputLog a p b recs) = [] := by
  induction recs with
  | nil => intro p b; rfl
  | cons r rs ih => intro p b; simp [inputLog, frees_append, frees_rowInputLog, ih]

theorem frees_writeLog (fmtLf : CDouble → String) (wr : Bool) (a : Nat) (rows : List RowPtr) :
    frees (writeLog fmtLf wr a rows) = [] := by
  induction rows with
  | nil => rfl
  | cons row rows ih =>
    have h : ∀ cells : List Relacion,
        frees (cells.flatMap (relWriteLog fmtLf wr a row.addr)) = [] := by
      intro cells
      induction cells with
      | nil => rfl
      | cons r rs ih2 =>
        rw [List.flatMap_cons, frees_append, ih2]
        cases wr <;> simp [relWriteLog, frees]
    unfold writeLog at ih ⊢
    simp [frees_append, h, ih]

theorem frees_setupLog (u : Platform) (b : Nat) (N M : Int) (recs : List (List RelIn)) :
    frees (setupLog u b N M recs) = [] := by
  simp [setupLog, frees, frees_append, frees_allocLog, frees_inputLog]

theorem frees_freeRowsLog (a : Nat) (rows : List RowPtr) :
    frees (freeRowsLog a rows) = (releaseOrder ⟨a, rows⟩).dropLast := by
  have hrel : ∀ (p : Nat) (cells : List Relacion),
      frees (cells.flatMap (relFreeLog a p)) =
        cells.flatMap (fun r =>
          [r.empleado.nombre.str.addr, r.departamento.nombre.str.addr,
           r.departamento.projecto.str.addr, r.empresa.RazonSocial.str.addr]) := by
    intro p cells
    induction cells with
    | nil => rfl
    | cons r rs ih =>
      rw [List.flatMap_cons, frees_append, ih]
      simp [relFreeLog, frees]
  simp only [releaseOrder, List.dropLast_concat]
  induction rows with
  | nil => rfl
  | cons row rows ih =>
    unfold freeRowsLog at ih ⊢
    simp [frees_append, frees, hrel, ih]

theorem frees_freeLog (dato : DatoPtr) : frees (freeLog dato) = releaseOrder dato := by
  rw [freeLog, frees_append, frees_freeRowsLog]
  simp [releaseOrder, frees]

/-! ### Safety of the release block -/

theorem nuaf_cons_free (a : Nat) (evs : List Event) :
    noUseAfterFree (Event.free a :: evs) = true ↔
      (a = 0 ∨ ∀ e ∈ evs, e.addr ≠ a) ∧ noUseAfterFree evs = true := by
  simp [noUseAfterFree, List.all_eq_true]

theorem nuaf_append (xs ys : List Event) :
    noUseAfterFree (xs ++ ys) = true ↔
      noUseAfterFree xs = true ∧ noUseAfterFree ys = true ∧
        ∀ x ∈ frees xs, x = 0 ∨ ∀ e ∈ ys, e.addr ≠ x := by
  induction xs with
  | nil => simp [noUseAfterFree, frees]
  | cons e es ih =>
    cases e with
    | free a =>
      rw [List.cons_append, nuaf_cons_free, nuaf_cons_free, ih]
      simp only [frees, List.mem_append, List.mem_cons, forall_eq_or_imp]
      constructor
      · rintro ⟨h1, h2, h3, h4⟩
        refine ⟨⟨?_, h2⟩, h3, ?_, h4⟩
        · exact h1.imp id (fun h e he => h e (Or.inl he))
        · exact h1.imp id (fun h e he => h e (Or.inr he))
      · rintro ⟨⟨h1, h2⟩, h3, h4, h5⟩
        refine ⟨?_, h2, h3, h5⟩
        rcases h1 with h1 | h1
        · exact Or.inl h1
        · rcases h4 with h4 | h4
          · exact Or.inl h4
          · exact Or.inr (fun e he => he.elim (h1 e) (h4 e))
    | alloc a n => simpa [noUseAfterFree, frees] using ih
    | load a => simpa [noUseAfterFree, frees] using ih
    | store a => simpa [noUseAfterFree, frees] using ih
    | read t => simpa [noUseAfterFree, frees] using ih
    | write s t => simpa [noUseAfterFree, frees] using ih

theorem nuaf_of_no_frees (xs ys : List Event) (h : frees xs = []) :
    noUseAfterFree (xs ++ ys) = noUseAfterFree ys := by
  induction xs with
  | nil => rfl
  | cons e es ih =>
    cases e with
    | free a => simp [frees] at h
    | alloc a n => simpa [noUseAfterFree] using ih (by simpa [frees] using h)
    | load a => simpa [noUseAfterFree] using ih (by simpa [frees] using h)
    | store a => simpa [noUseAfterFree] using ih (by simpa [frees] using h)
    | read t => simpa [noUseAfterFree] using ih (by simpa [frees] using h)
    | write s t => simpa [noUseAfterFree] using ih (by simpa [frees] using h)

theorem nodup_frees_of_nuaf (evs : List Event) (h : noUseAfterFree evs = true)
    (h0 : 0 ∉ frees evs) : (frees evs).Nodup := by
  induction evs with
  | nil => simp [frees]
  | cons e es ih =>
    cases e with
    | free a =>
      rw [nuaf_cons_free] at h
      simp only [frees, List.mem_cons, not_or] at h0
      simp only [frees, List.nodup_cons]
      refine ⟨fun hm => ?_, ih h.2 h0.2⟩
      rcases h.1 with h1 | h1
      · exact h0.1 h1.symm
      · exact h1 _ (mem_frees.mp hm) rfl
    | alloc a n => exact ih (by simpa [noUseAfterFree] using h) (by simpa [frees] using h0)
    | load a => exact ih (by simpa [noUseAfterFree] using h) (by simpa [frees] using h0)
    | store a => exact ih (by simpa [noUseAfterFree] using h) (by simpa [frees] using h0)
    | read t => exact ih (by simpa [noUseAfterFree] using h) (by simpa [frees] using h0)
    | write s t => exact ih (by simpa [noUseAfterFree] using h) (by simpa [frees] using h0)

theorem addr_rowFree (a p : Nat) (rins : List RelIn) :
    ∀ b, ∀ e ∈ (relsOf b rins).flatMap (relFreeLog a p),
      e.addr = a ∨ e.addr = p ∨ (b < e.addr ∧ e.addr ≤ b + 4 * rins.length) := by
  induction rins with
  | nil => intro b e he; simp [relsOf] at he
  | cons r rs ih =>
    intro b e he
    rw [relsOf, List.flatMap_cons, List.mem_append] at he
    rcases he with he | he
    · simp only [relFreeLog, RelIn.toRelacion, List.mem_cons, List.mem_singleton,
        List.not_mem_nil, or_false] at he
      simp only [List.length_cons]
      rcases he with rfl | rfl | rfl | rfl | rfl | rfl | rfl | rfl | rfl | rfl | rfl | rfl <;>
        simp [Event.addr] <;> omega
    · rcases ih (b + 4) e he with h | h | h
      · exact Or.inl h
      · exact Or.inr (Or.inl h)
      · refine Or.inr (Or.inr ?_)
        simp only [List.length_cons]
        omega

theorem frees_rowFree_bound (a p : Nat) (rins : List RelIn) :
    ∀ b, ∀ x ∈ frees ((relsOf b rins).flatMap (relFreeLog a p)),
      b < x ∧ x ≤ b + 4 * rins.length := by
  induction rins with
  | nil => intro b x hx; simp [relsOf, frees] at hx
  | cons r rs ih =>
    intro b x hx
    rw [relsOf, List.flatMap_cons, frees_append, List.mem_append] at hx
    simp only [List.length_cons]
    rcases hx with hx | hx
    · simp only [relFreeLog, RelIn.toRelacion, frees, List.mem_cons, List.mem_singleton,
        List.not_mem_nil, or_false] at hx
      omega
    · have := ih (b + 4) x hx
      omega

theorem nuaf_rowFree (a p : Nat) (rins : List RelIn) :
    ∀ b, a ≤ b → p ≤ b → noUseAfterFree ((relsOf b rins).flatMap (relFreeLog a p)) = true := by
  induction rins with
  | nil => intro b _ _; rfl
  | cons r rs ih =>
    intro b ha hp
    rw [relsOf, List.flatMap_cons, nuaf_append]
    refine ⟨?_, ih (b + 4) (by omega) (by omega), ?_⟩
    · simp only [relFreeLog, RelIn.toRelacion, noUseAfterFree, List.all_cons, List.all_nil,
        Event.addr, Bool.and_true, Bool.and_eq_true, Bool.or_eq_true, bne_iff_ne, ne_eq,
        beq_iff_eq]
      refine ⟨Or.inr ?_, Or.inr ?_, Or.inr ?_, Or.inr trivial⟩
      all_goals (repeat' apply And.intro) <;> omega
    · intro x hx
      right
      intro e he
      simp only [relFreeLog, RelIn.toRelacion, frees, List.mem_cons, List.mem_singleton,
        List.not_mem_nil, or_false] at hx
      rcases addr_rowFree a p rs (b + 4) e he with h | h | h <;> omega

theorem freeRowsLog_cons (a : Nat) (row : RowPtr) (rows : List RowPtr) :
    freeRowsLog a (row :: rows) =
      (row.cells.flatMap (relFreeLog a row.addr) ++ [Event.load a, Event.free row.addr]) ++
        freeRowsLog a rows := by
  simp [freeRowsLog]

theorem addr_rowsFree (a : Nat) (recs : List (List RelIn)) :
    ∀ p b, ∀ e ∈ freeRowsLog a (rowsOf p b recs),
      e.addr = a ∨ (p ≤ e.addr ∧ e.addr < p + recs.length) ∨
        (b < e.addr ∧ e.addr ≤ b + 4 * recs.flatten.length) := by
  induction recs with
  | nil => intro p b e he; simp [rowsOf, freeRowsLog] at he
  | cons rins rs ih =>
    intro p b e he
    rw [rowsOf, freeRowsLog_cons, List.mem_append, List.mem_append] at he
    simp only [List.length_cons, List.flatten_cons, List.length_append]
    rcases he with (he | he) | he
    · rcases addr_rowFree a p rins b e he with h | h | h
      · exact Or.inl h
      · exact Or.inr (Or.inl (by omega))
      · exact Or.inr (Or.inr (by omega))
    · simp only [List.mem_cons, List.mem_singleton, List.not_mem_nil, or_false] at he
      rcases he with rfl | rfl
      · exact Or.inl rfl
      · exact Or.inr (Or.inl (by simp [Event.addr]))
    · rcases ih (p + 1) (b + 4 * rins.length) e he with h | h | h
      · exact Or.inl h
      · exact Or.inr (Or.inl (by omega))
      · exact Or.inr (Or.inr (by omega))

theorem frees_rowsFree_bound (a : Nat) (recs : List (List RelIn)) :
    ∀ p b, ∀ x ∈ frees (freeRowsLog a (rowsOf p b recs)),
      (p ≤ x ∧ x < p + recs.length) ∨ (b < x ∧ x ≤ b + 4 * recs.flatten.length) := by
  induction recs with
  | nil => intro p b x hx; simp [rowsOf, freeRowsLog, frees] at hx
  | cons rins rs ih =>
    intro p b x hx
    rw [rowsOf, freeRowsLog_cons, frees_append, frees_append, List.mem_append,
      List.mem_append] at hx
    simp only [List.length_cons, List.flatten_cons, List.length_append]
    rcases hx with (hx | hx) | hx
    · have := frees_rowFree_bound a p rins b x hx
      exact Or.inr (by omega)
    · simp only [frees, List.mem_singleton] at hx
      exact Or.inl (by omega)
    · rcases ih (p + 1) (b + 4 * rins.length) x hx with h | h
      · exact Or.inl (by omega)
      · exact Or.inr (by omega)

theorem nuaf_rowsFree (a : Nat) (recs : List (List RelIn)) :
    ∀ p b, a < p → p + recs.length ≤ b + 1 →
      noUseAfterFree (freeRowsLog a (rowsOf p b recs)) = true := by
  induction recs with
  | nil => intro p b _ _; rfl
  | cons rins rs ih =>
    intro p b ha hp
    simp only [List.length_cons] at hp
    rw [rowsOf, freeRowsLog_cons, nuaf_append, nuaf_append]
    refine ⟨⟨nuaf_rowFree a p rins b (by omega) (by omega), ?_, ?_⟩,
      ih (p + 1) (b + 4 * rins.length) (by omega) (by omega), ?_⟩
    · simp [noUseAfterFree]
    · intro x hx
      right
      intro e he
      have := frees_rowFree_bound a p rins b x hx
      simp only [List.mem_cons, List.mem_singleton, List.not_mem_nil, or_false] at he
      rcases he with rfl | rfl <;> simp only [Event.addr] <;> omega
    · intro x hx
      right
      intro e he
      rw [frees_append, List.mem_append] at hx
      have hb := addr_rowsFree a rs (p + 1) (b + 4 * rins.length) e he
      rcases hx with hx | hx
      · have := frees_rowFree_bound a p rins b x hx
        omega
      · simp only [frees, List.mem_singleton] at hx
        omega

theorem nuaf_mainLog (fmtLf : CDouble → String) (u : Platform) (wr : Bool) (b : Nat)
    (N M : Int) (recs : List (List RelIn)) :
    noUseAfterFree (mainLog fmtLf u wr b N M recs) = true := by
  unfold mainLog
  rw [List.append_assoc, nuaf_of_no_frees _ _ (frees_setupLog u b N M recs),
    nuaf_of_no_frees _ _ (frees_writeLog _ _ _ _), freeLog, nuaf_append]
  refine ⟨nuaf_rowsFree _ recs _ _ (by simp [datoOf]) (by omega), ?_, ?_⟩
  · simp [noUseAfterFree]
  · intro x hx
    right
    intro e he
    have := frees_rowsFree_bound _ recs _ _ x hx
    simp only [List.mem_singleton] at he
    subst he
    simp only [Event.addr, datoOf]
    omega

theorem frees_mainLog (fmtLf : CDouble → String) (u : Platform) (wr : Bool) (b : Nat)
    (N M : Int) (recs : List (List RelIn)) :
    frees (mainLog fmtLf u wr b N M recs) = releaseOrder (datoOf b recs) := by
  simp [mainLog, frees_append, frees_setupLog, frees_writeLog, frees_freeLog]

theorem zero_not_released (recs : List (List RelIn)) (b : Nat) :
    0 ∉ releaseOrder (datoOf b recs) := by
  rw [← frees_freeLog, freeLog, frees_append]
  intro h
  simp only [List.mem_append, frees, List.mem_singleton] at h
  rcases h with h | h
  · have := frees_rowsFree_bound _ recs _ _ 0 h
    omega
  · simp [datoOf] at h

theorem releaseOrder_length (recs : List (List RelIn)) (b : Nat) :
    (releaseOrder (datoOf b recs)).length = 4 * recs.flatten.length + recs.length + 1 := by
  have h : ∀ (recs : List (List RelIn)) (p c : Nat),
      ((rowsOf p c recs).flatMap (fun row =>
        row.cells.flatMap (fun r =>
          [r.empleado.nombre.str.addr, r.departamento.nombre.str.addr,
           r.departamento.projecto.str.addr, r.empresa.RazonSocial.str.addr]) ++
            [row.addr])).length = 4 * recs.flatten.length + recs.length := by
    intro recs
    induction recs with
    | nil => intro p c; rfl
    | cons rins rs ih =>
      intro p c
      have hl : ∀ cells : List Relacion, (cells.flatMap (fun r =>
          [r.empleado.nombre.str.addr, r.departamento.nombre.str.addr,
           r.departamento.projecto.str.addr, r.empresa.RazonSocial.str.addr])).length =
            4 * cells.length := by
        intro cells
        induction cells with
        | nil => rfl
        | cons r rs ih2 =>
          rw [List.flatMap_cons, List.length_append, ih2]
          simp only [List.length_cons, List.length_nil]
          omega
      rw [rowsOf, List.flatMap_cons, List.length_append, ih, List.length_append, hl,
        relsOf_length]
      simp only [List.length_cons, List.length_nil, List.flatten_cons, List.length_append]
      omega
  simp only [releaseOrder, datoOf, List.length_append, h, List.length_cons, List.length_nil]


/-! ### Runs without records -/

theorem alloc_loop_any (u : Platform) (M : Int) (a : Nat) (ha : a ≠ 0) (w : World)
    (rest : List Token) (o : String) (ps : List String) (dpost : List RowPtr) :
    ∀ (k : Nat) (olds dpre : List RowPtr) (i n : Nat) (evs : List Event),
      olds.length = k → i = dpre.length →
      forLoop (allocStep u M) i k
          (⟨a, dpre ++ olds ++ dpost⟩, w.step rest o ps n evs) =
        Except.ok
          (⟨a, dpre ++
              (allocAddrs w.grants (sizeMul M u.sizeofRelacion) (w.next + n) k).map
                (fun p => RowPtr.mk p (List.replicate M.toNat u.rel)) ++ dpost⟩,
          w.step rest o ps
            (n + allocCount w.grants (sizeMul M u.sizeofRelacion) (w.next + n) k)
            (evs ++ (allocAddrs w.grants (sizeMul M u.sizeofRelacion) (w.next + n) k).flatMap
              (fun p => [Event.alloc p (sizeMul M u.sizeofRelacion), Event.store a]))) := by
  intro k
  induction k with
  | zero =>
    intro olds dpre i n evs hk _
    have : olds = [] := List.length_eq_zero.mp hk
    subst this
    simp [forLoop, allocAddrs, allocCount]
  | succ k ih =>
    intro olds dpre i n evs hk hi
    obtain ⟨x, xs, rfl⟩ := List.exists_cons_of_length_eq_add_one hk
    have hlen : i < (dpre ++ x :: xs ++ dpost).length := by
      simp [hi]
    have hset : ∀ p, (dpre ++ x :: xs ++ dpost).set i
          ⟨p, List.replicate M.toNat u.rel⟩ =
        (dpre ++ [⟨p, List.replicate M.toNat u.rel⟩]) ++ xs ++ dpost := by
      intro p
      simp [hi]
    cases g : w.grants (w.next + n + 1) (sizeMul M u.sizeofRelacion) with
    | true =>
      have hstep : allocStep u M i (⟨a, dpre ++ x :: xs ++ dpost⟩, w.step rest o ps n evs) =
          Except.ok
            (⟨a, (dpre ++ [⟨w.next + n + 1, List.replicate M.toNat u.rel⟩]) ++ xs ++ dpost⟩,
            w.step rest o ps (n + 1)
              (evs ++ [Event.alloc (w.next + n + 1) (sizeMul M u.sizeofRelacion),
                Event.store a])) := by
        simp only [allocStep, step_malloc _ _ _ _ _ _ _ g, step_store _ _ _ _ _ _ _ ha,
          if_pos hlen, hset, bind, Except.bind, pure, Except.pure]
        simp
      have h2 := ih xs (dpre ++ [RowPtr.mk (w.next + n + 1) (List.replicate M.toNat u.rel)])
        (i + 1) (n + 1)
        (evs ++ [Event.alloc (w.next + n + 1) (sizeMul M u.sizeofRelacion), Event.store a])
        (by simpa using hk) (by simp [hi])
      rw [forLoop, hstep, ok_bind, h2]
      simp only [allocAddrs, allocCount, g, if_true, List.map_cons, List.flatMap_cons,
        List.append_assoc, List.cons_append, List.nil_append]
      rw [Nat.add_assoc n 1, Nat.add_comm 1]
      rfl
    | false =>
      have hstep : allocStep u M i (⟨a, dpre ++ x :: xs ++ dpost⟩, w.step rest o ps n evs) =
          Except.ok
            (⟨a, (dpre ++ [⟨0, List.replicate M.toNat u.rel⟩]) ++ xs ++ dpost⟩,
            w.step rest o ps n
              (evs ++ [Event.alloc 0 (sizeMul M u.sizeofRelacion), Event.store a])) := by
        simp only [allocStep, step_malloc_refused _ _ _ _ _ _ _ g,
          step_store _ _ _ _ _ _ _ ha, if_pos hlen, hset, bind, Except.bind, pure,
          Except.pure]
        simp
      have h2 := ih xs (dpre ++ [RowPtr.mk 0 (List.replicate M.toNat u.rel)])
        (i + 1) n
        (evs ++ [Event.alloc 0 (sizeMul M u.sizeofRelacion), Event.store a])
        (by simpa using hk) (by simp [hi])
      rw [forLoop, hstep, ok_bind, h2]
      simp only [allocAddrs, allocCount, g, Bool.false_eq_true, if_false, List.map_cons,
        List.flatMap_cons, List.append_assoc, List.cons_append, List.nil_append]

theorem forLoop_skip {σ : Type} (body : Nat → σ → Except Fault σ)
    (h : ∀ i s, body i s = Except.ok s) : ∀ k i s, forLoop body i k s = Except.ok s := by
  intro k
  induction k with
  | zero => intro i s; rfl
  | succ k ih => intro i s; rw [forLoop, h, ok_bind, ih]

theorem allocAddrs_length (g : Nat → Nat → Bool) (size : Nat) :
    ∀ k b, (allocAddrs g size b k).length = k := by
  intro k
  induction k with
  | zero => intro b; rfl
  | succ k ih =>
    intro b
    rw [allocAddrs]
    split <;> simp [ih]

theorem freeRowsLog_empty_rows (a : Nat) (cells : List Relacion) (hc : cells = [])
    (l : List Nat) :
    freeRowsLog a (l.map (fun p => RowPtr.mk p cells)) =
      l.flatMap (fun p => [Event.load a, Event.free p]) := by
  subst hc
  induction l with
  | nil => rfl
  | cons x xs ih =>
    rw [List.map_cons, freeRowsLog_cons, ih]
    simp

theorem ioEvents_flatMap_nil {α : Type} (f : α → List Event)
    (h : ∀ x, ioEvents (f x) = []) (l : List α) : ioEvents (l.flatMap f) = [] := by
  induction l with
  | nil => rfl
  | cons x xs ih => rw [List.flatMap_cons, ioEvents_append, h, ih]; rfl

theorem main_no_sessions (fmtLf : CDouble → String) (u : Platform) (w : World) (N M : Int)
    (rest : List Token) (hN : N ≤ 0)
    (hin : w.stdin = Token.int N :: Token.int M :: rest) :
    main fmtLf u w = Except.ok (0, w.step rest ""
      ["Ingrese el numero de sesiones: ", "Ingrese el numero de relaciones: "]
      (if w.grants (w.next + 1) (sizeMul N 8) then 1 else 0)
      [Event.read (Token.int N),
       Event.alloc (if w.grants (w.next + 1) (sizeMul N 8) then w.next + 1 else 0)
         (sizeMul N 8),
       Event.read (Token.int M),
       Event.free (if w.grants (w.next + 1) (sizeMul N 8) then w.next + 1 else 0)]) := by
  have hn : N.toNat = 0 := by omega
  have h0 := World.step_id w
  rw [hin] at h0
  cases g : w.grants (w.next + 1) (sizeMul N 8) with
  | true =>
    have g0 : w.grants (w.next + 0 + 1) (sizeMul N 8) = true := by simpa using g
    conv_lhs => rw [← h0]
    unfold main
    simp only [step_input_int, bind, Except.bind, pure, Except.pure,
      step_malloc w _ _ _ 0 _ _ g0, hn, forLoop, step_free, World.step_step]
    simp
  | false =>
    have g0 : w.grants (w.next + 0 + 1) (sizeMul N 8) = false := by simpa using g
    conv_lhs => rw [← h0]
    unfold main
    simp only [step_input_int, bind, Except.bind, pure, Except.pure,
      step_malloc_refused w _ _ _ 0 _ _ g0, hn, forLoop, step_free, World.step_step]
    simp

theorem main_no_relations (fmtLf : CDouble → String) (u : Platform) (w : World) (N M : Int)
    (rest : List Token) (hM : M ≤ 0)
    (hin : w.stdin = Token.int N :: Token.int M :: rest)
    (hg : w.grants (w.next + 1) (sizeMul N 8) = true) :
    main fmtLf u w = Except.ok (0, w.step rest ""
      ["Ingrese el numero de sesiones: ", "Ingrese el numero de relaciones: "]
      (1 + allocCount w.grants (sizeMul M u.sizeofRelacion) (w.next + 1) N.toNat)
      ([Event.read (Token.int N), Event.alloc (w.next + 1) (sizeMul N 8),
        Event.read (Token.int M)] ++
        (allocAddrs w.grants (sizeMul M u.sizeofRelacion) (w.next + 1) N.toNat).flatMap
          (fun p => [Event.alloc p (sizeMul M u.sizeofRelacion), Event.store (w.next + 1)]) ++
        (allocAddrs w.grants (sizeMul M u.sizeofRelacion) (w.next + 1) N.toNat).flatMap
          (fun p => [Event.load (w.next + 1), Event.free p]) ++
        [Event.free (w.next + 1)])) := by
  have hm : M.toNat = 0 := by omega
  have ha : w.next + 1 ≠ 0 := by omega
  have g0 : w.grants (w.next + 0 + 1) (sizeMul N 8) = true := by simpa using hg
  have h0 := World.step_id w
  rw [hin] at h0
  conv_lhs => rw [← h0]
  have halloc := alloc_loop_any u M (w.next + 1) ha w rest ""
    ["Ingrese el numero de sesiones: ", "Ingrese el numero de relaciones: "] []
    N.toNat (List.replicate N.toNat u.row) [] 0 1
    [Event.read (Token.int N), Event.alloc (w.next + 1) (sizeMul N 8),
      Event.read (Token.int M)] (by simp) rfl
  simp only [List.nil_append, List.append_nil] at halloc
  have hfree := free_rows
    ⟨w.next + 1, (allocAddrs w.grants (sizeMul M u.sizeofRelacion) (w.next + 1) N.toNat).map
      (fun p => RowPtr.mk p (List.replicate M.toNat u.rel))⟩ ha 0 w rest ""
    ["Ingrese el numero de sesiones: ", "Ingrese el numero de relaciones: "]
    (1 + allocCount w.grants (sizeMul M u.sizeofRelacion) (w.next + 1) N.toNat) []
    ((allocAddrs w.grants (sizeMul M u.sizeofRelacion) (w.next + 1) N.toNat).map
      (fun p => RowPtr.mk p (List.replicate M.toNat u.rel))) [] 0
    ([Event.read (Token.int N), Event.alloc (w.next + 1) (sizeMul N 8),
      Event.read (Token.int M)] ++
      (allocAddrs w.grants (sizeMul M u.sizeofRelacion) (w.next + 1) N.toNat).flatMap
        (fun p => [Event.alloc p (sizeMul M u.sizeofRelacion), Event.store (w.next + 1)]))
    (by simp) rfl
    (by
      intro row hrow
      obtain ⟨p, _, rfl⟩ := List.mem_map.mp hrow
      simp [hm])
  rw [List.length_map, allocAddrs_length,
    freeRowsLog_empty_rows _ _ (by simp [hm])] at hfree
  simp only [Except.bind] at hfree
  rw [hm] at hfree
  unfold main
  simp only [step_input_int, bind, Except.bind, pure, Except.pure,
    step_malloc w _ _ _ 0 _ _ g0, List.nil_append, List.cons_append, Nat.zero_add,
    Nat.add_zero, halloc, hm,
    forLoop_skip (fun i => forLoop (inputStep i) 0 0) (fun _ _ => rfl),
    forLoop_skip (fun i => forLoop (writeStep fmtLf _ i) 0 0) (fun _ _ => rfl),
    List.replicate_zero]
  simp only [List.replicate_zero, List.cons_append, List.nil_append] at hfree
  rw [hfree]
  simp [step_free]


theorem inputRelacion_null (old : Relacion) (w : World) (v : Int) (rest : List Token)
    (o : String) (ps : List String) (k : Nat) (evs : List Event) :
    inputRelacion 0 old (w.step (Token.int v :: rest) o ps k evs) =
      Except.error Fault.null := by
  unfold inputRelacion
  simp only [step_input_int, bind, Except.bind, store, if_true]

theorem main_null_row (fmtLf : CDouble → String) (u : Platform) (w : World) (N M : Int)
    (v : Int) (rest : List Token) (hN : 0 < N) (hM : 0 < M)
    (hin : w.stdin = Token.int N :: Token.int M :: Token.int v :: rest)
    (hg : w.grants (w.next + 1) (sizeMul N 8) = true)
    (hr : w.grants (w.next + 2) (sizeMul M u.sizeofRelacion) = false) :
    main fmtLf u w = Except.error Fault.null := by
  obtain ⟨n, hn⟩ : ∃ n, N.toNat = n + 1 := ⟨N.toNat - 1, by omega⟩
  obtain ⟨m, hm⟩ : ∃ m, M.toNat = m + 1 := ⟨M.toNat - 1, by omega⟩
  have ha : w.next + 1 ≠ 0 := by omega
  have g0 : w.grants (w.next + 0 + 1) (sizeMul N 8) = true := by simpa using hg
  have h0 := World.step_id w
  rw [hin] at h0
  rw [← h0]
  have halloc := alloc_loop_any u M (w.next + 1) ha w (Token.int v :: rest) ""
    ["Ingrese el numero de sesiones: ", "Ingrese el numero de relaciones: "] []
    N.toNat (List.replicate N.toNat u.row) [] 0 1
    [Event.read (Token.int N), Event.alloc (w.next + 1) (sizeMul N 8),
      Event.read (Token.int M)] (by simp) rfl
  have haddrs : allocAddrs w.grants (sizeMul M u.sizeofRelacion) (w.next + 1) (n + 1) =
      0 :: allocAddrs w.grants (sizeMul M u.sizeofRelacion) (w.next + 1) n := by
    rw [allocAddrs, if_neg (by simpa using hr)]
  simp only [List.nil_append, List.append_nil] at halloc
  rw [hn, haddrs] at halloc
  unfold main
  simp only [step_input_int, bind, Except.bind, pure, Except.pure,
    step_malloc w _ _ _ 0 _ _ g0, List.nil_append, List.cons_append, Nat.zero_add,
    Nat.add_zero, hn, hm]
  rw [halloc]
  simp only [forLoop, Except.bind, inputStep, loadRow, step_load _ _ _ _ _ _ _ ha, index,
    List.map_cons, List.getElem?_cons_zero, hm, List.replicate_succ, bind, pure,
    Except.pure, inputRelacion_null]


/-! ### C1: the records are echoed -/

/-- C1 (amended): for session and relation counts `N`, `M` and any `N` rows of `M` records
waiting on standard input behind the two counts, provided every allocation of the run
succeeds and standard output accepts output, `main` returns 0 having consumed exactly the
two counts and the `N * M` records, prompting for each of their nine values, and having
written to standard output, and to no other stream, exactly those records in the order
read (session by session, record by record within a session): for each record, the text of
its first to ninth value read, each followed by a newline. Every read of the run comes
before every write: the reads and writes of the run are, in order, the two counts, the
values of the records, and then one write per record. -/
theorem main_echoes_records (fmtLf : CDouble → String) (u : Platform) (w : World) (N M : Nat)
    (recs : List (List RelIn)) (rest : List Token)
    (hN : recs.length = N) (hM : ∀ rins ∈ recs, rins.length = M)
    (hin : w.stdin =
      Token.int N :: Token.int M :: (recs.flatten.flatMap RelIn.tokens ++ rest))
    (hg : allGranted w.grants u w.next N M recs = true)
    (hw : w.writable stdout = true) :
    ∃ w1 evs, main fmtLf u w = Except.ok (0, w1) ∧
      w1.stdin = rest ∧
      recs.flatten.length = N * M ∧
      w1.prompts = w.prompts ++
        ("Ingrese el numero de sesiones: " :: "Ingrese el numero de relaciones: " ::
          recs.flatten.flatMap (fun _ => recPrompts)) ∧
      w1.files stdout = w.files stdout ++
        linesText ((recs.flatten.flatMap RelIn.tokens).map (Token.text fmtLf)) ∧
      (∀ s, s ≠ stdout → w1.files s = w.files s) ∧
      w1.log = w.log ++ evs ∧
      ioEvents evs =
        (Token.int N :: Token.int M :: recs.flatten.flatMap RelIn.tokens).map Event.read ++
          recs.flatten.map
            (fun r => Event.write stdout (linesText (r.tokens.map (Token.text fmtLf)))) := by
  have hrun := main_run fmtLf u w N M recs rest (by simpa using hN) (by simpa using hM) hg hin
  rw [hw] at hrun
  refine ⟨_, _, hrun, rfl, ?_, rfl, ?_, ?_, rfl, ioEvents_mainLog fmtLf u w.next N M recs⟩
  · rw [flatten_length_of_shape M recs hM, hN]
  · simp [World.step, datoOf, writeText_rowsOf]
  · intro s hs
    simp [World.step, Function.update_noteq hs]

/-- Witness of C1: two sessions of one record each, an allocator that grants every request
of the run and a standard output that accepts output. -/
theorem main_echoes_records_witness :
    (allGranted (worldOf 4096 (Token.int (2 : Nat) :: Token.int (1 : Nat) ::
        ([[sampleRelIn], [sampleRelIn2]].flatten.flatMap RelIn.tokens ++
          [Token.int 99]))).grants samplePlatform 0 (2 : Nat) (1 : Nat)
        [[sampleRelIn], [sampleRelIn2]] = true ∧
      (worldOf 4096 (Token.int (2 : Nat) :: Token.int (1 : Nat) ::
        ([[sampleRelIn], [sampleRelIn2]].flatten.flatMap RelIn.tokens ++
          [Token.int 99]))).writable stdout = true) ∧
    ∃ w1 evs, main sampleLf samplePlatform
        (worldOf 4096 (Token.int (2 : Nat) :: Token.int (1 : Nat) ::
          ([[sampleRelIn], [sampleRelIn2]].flatten.flatMap RelIn.tokens ++ [Token.int 99]))) =
        Except.ok (0, w1) ∧
      w1.stdin = [Token.int 99] ∧
      [[sampleRelIn], [sampleRelIn2]].flatten.length = 2 * 1 ∧
      w1.prompts = [] ++
        ("Ingrese el numero de sesiones: " :: "Ingrese el numero de relaciones: " ::
          [[sampleRelIn], [sampleRelIn2]].flatten.flatMap (fun _ => recPrompts)) ∧
      w1.files stdout = "" ++
        linesText (([[sampleRelIn], [sampleRelIn2]].flatten.flatMap RelIn.tokens).map
          (Token.text sampleLf)) ∧
      (∀ s, s ≠ stdout → w1.files s = "") ∧
      w1.log = [] ++ evs ∧
      ioEvents evs =
        (Token.int (2 : Nat) :: Token.int (1 : Nat) ::
            [[sampleRelIn], [sampleRelIn2]].flatten.flatMap RelIn.tokens).map Event.read ++
          [[sampleRelIn], [sampleRelIn2]].flatten.map
            (fun r => Event.write stdout (linesText (r.tokens.map (Token.text sampleLf)))) :=
  ⟨⟨by decide, rfl⟩,
    main_echoes_records sampleLf samplePlatform _ 2 1 [[sampleRelIn], [sampleRelIn2]]
      [Token.int 99] rfl (by decide) rfl (by decide) rfl⟩

/-- Counterexample to C1 as stated, for two sessions of one record each, every value
waiting on standard input. When the allocator grants the outer array (16 bytes) and refuses
the row arrays (72 bytes each), the null pointer is stored in `dato[0]` (main.c, line 88)
and the first `inputRelacion` stores through it (line 94): the run ends there instead of
echoing the records and returning 0. When every allocation succeeds and standard output
does not accept output, the run returns 0 with every value consumed and nothing written. -/
theorem main_unchecked_failures_counterexample :
    sampleInput = Token.int 2 :: Token.int 1 ::
      ([[sampleRelIn], [sampleRelIn2]].flatten.flatMap RelIn.tokens ++ []) ∧
    main sampleLf samplePlatform (worldOf 16 sampleInput) = Except.error Fault.null ∧
    (∃ w1, main sampleLf samplePlatform (worldClosed 4096 sampleInput) = Except.ok (0, w1) ∧
      w1.stdin = [] ∧ w1.files stdout = "") ∧
    linesText (([[sampleRelIn], [sampleRelIn2]].flatten.flatMap RelIn.tokens).map
      (Token.text sampleLf)) ≠ "" := by
  refine ⟨rfl, ?_, ?_, by decide⟩
  · exact main_null_row sampleLf samplePlatform (worldOf 16 sampleInput) 2 1 7 _ (by decide)
      (by decide) rfl (by decide) (by decide)
  · have hrun := main_run sampleLf samplePlatform (worldClosed 4096 sampleInput) 2 1
      [[sampleRelIn], [sampleRelIn2]] [] rfl (by decide) (by decide) rfl
    have hw : (worldClosed 4096 sampleInput).writable stdout = false := by decide
    rw [hw, writeText_closed] at hrun
    exact ⟨_, hrun, rfl, rfl⟩


/-! ### C8: the release block -/

/-- C8 (amended): with `N` rows of `M` records read and every allocation of the run
granted, `main` returns 0 and its trace is the set-up and input events, then the events of
the output loops, then the release block; no release happens before the release block and
nothing is read or written in it, so every release comes after the last record was
written. The release block releases, session by session, the four string buffers of each
record of the session and then the row array of the session, and after the last session
the outer array (`releaseOrder`): `4 * N * M + N + 1` releases, no address twice; and no
block is released, loaded from or stored to after its release. -/
theorem main_releases_what_it_allocated (fmtLf : CDouble → String) (u : Platform)
    (w : World) (N M : Nat) (recs : List (List RelIn)) (rest : List Token)
    (hN : recs.length = N) (hM : ∀ rins ∈ recs, rins.length = M)
    (hin : w.stdin =
      Token.int N :: Token.int M :: (recs.flatten.flatMap RelIn.tokens ++ rest))
    (hg : allGranted w.grants u w.next N M recs = true) :
    ∃ w1, main fmtLf u w = Except.ok (0, w1) ∧
      w1.log = w.log ++
        (setupLog u w.next N M recs ++
          writeLog fmtLf (w.writable stdout) (w.next + 1) (datoOf w.next recs).cells ++
          freeLog (datoOf w.next recs)) ∧
      frees (setupLog u w.next N M recs ++
        writeLog fmtLf (w.writable stdout) (w.next + 1) (datoOf w.next recs).cells) = [] ∧
      ioEvents (freeLog (datoOf w.next recs)) = [] ∧
      frees (freeLog (datoOf w.next recs)) = releaseOrder (datoOf w.next recs) ∧
      (releaseOrder (datoOf w.next recs)).length = 4 * N * M + N + 1 ∧
      (releaseOrder (datoOf w.next recs)).Nodup ∧
      noUseAfterFree
        (setupLog u w.next N M recs ++
          writeLog fmtLf (w.writable stdout) (w.next + 1) (datoOf w.next recs).cells ++
          freeLog (datoOf w.next recs)) = true := by
  have hnuaf := nuaf_mainLog fmtLf u (w.writable stdout) w.next N M recs
  have hfr := frees_mainLog fmtLf u (w.writable stdout) w.next N M recs
  have hnd := nodup_frees_of_nuaf _ hnuaf (by rw [hfr]; exact zero_not_released recs w.next)
  rw [hfr] at hnd
  refine ⟨_, main_run fmtLf u w N M recs rest (by simpa using hN) (by simpa using hM) hg hin,
    rfl, ?_, ?_, frees_freeLog _, ?_, hnd, hnuaf⟩
  · simp [frees_append, frees_setupLog, frees_writeLog]
  · rw [freeLog, ioEvents_append, ioEvents_freeRowsLog]
    rfl
  · rw [releaseOrder_length, flatten_length_of_shape M recs hM, hN, Nat.mul_assoc]

/-- Witness of C8 as amended: the sample input of two sessions of one record each, with an
allocator that grants every request of the run. -/
theorem main_releases_what_it_allocated_witness :
    ([[sampleRelIn], [sampleRelIn2]].length = 2 ∧
      (∀ rins ∈ [[sampleRelIn], [sampleRelIn2]], rins.length = 1) ∧
      (worldOf 4096 sampleInput).stdin = Token.int (2 : Nat) :: Token.int (1 : Nat) ::
        ([[sampleRelIn], [sampleRelIn2]].flatten.flatMap RelIn.tokens ++ []) ∧
      allGranted (worldOf 4096 sampleInput).grants samplePlatform 0 (2 : Nat) (1 : Nat)
        [[sampleRelIn], [sampleRelIn2]] = true) ∧
    ∃ w1, main sampleLf samplePlatform (worldOf 4096 sampleInput) = Except.ok (0, w1) ∧
      (releaseOrder (datoOf 0 [[sampleRelIn], [sampleRelIn2]])).length = 4 * 2 * 1 + 2 + 1 ∧
      noUseAfterFree w1.log = true :=
  ⟨⟨rfl, by decide, rfl, by decide⟩,
    (main_releases_what_it_allocated sampleLf samplePlatform (worldOf 4096 sampleInput) 2 1
      [[sampleRelIn], [sampleRelIn2]] [] rfl (by decide) rfl (by decide)).elim
      (fun w1 h => ⟨w1, h.1, h.2.2.2.2.2.1, by
        rw [h.2.1]
        exact h.2.2.2.2.2.2.2⟩)⟩

/-- Counterexample to C8 as stated. On the sample input (two sessions of one record each),
every allocation granted, the blocks are the outer array (address 1), the two row arrays (2
and 3) and the string buffers of the two records (4-7 and 8-11); the row array of the first
session (2) is released before the string buffers of the record of the second session (11,
9, 10, 8), so the releases are not "all string buffers, then the row arrays, then the outer
array". And for one session of one record, when the allocator refuses the outer array the
run ends in a store through the null pointer (main.c, line 88) and nothing is released. -/
theorem release_order_counterexample :
    (∃ w1, main sampleLf samplePlatform (worldOf 4096 sampleInput) = Except.ok (0, w1) ∧
      allocs w1.log =
        [(1, 16), (2, 72), (3, 72), (4, 5), (5, 7), (6, 5), (7, 4), (8, 5), (9, 8), (10, 5),
         (11, 5)] ∧
      frees w1.log = [7, 5, 6, 4, 2, 11, 9, 10, 8, 3, 1] ∧
      ¬ ∃ strs : List Nat, frees w1.log = strs ++ [2, 3] ++ [1]) ∧
    main sampleLf samplePlatform
      (worldOf 0 (Token.int 1 :: Token.int 1 :: sampleRelIn.tokens)) =
        Except.error Fault.null := by
  have hrun := main_run sampleLf samplePlatform (worldOf 4096 sampleInput) 2 1
    [[sampleRelIn], [sampleRelIn2]] [] rfl (by decide) (by decide) rfl
  have hfrees : frees (mainLog sampleLf samplePlatform true 0 2 1
      [[sampleRelIn], [sampleRelIn2]]) = [7, 5, 6, 4, 2, 11, 9, 10, 8, 3, 1] := by
    rw [frees_mainLog]
    decide
  have hlog : frees ((worldOf 4096 sampleInput).step []
      (writeText sampleLf ((worldOf 4096 sampleInput).writable stdout)
        (datoOf (worldOf 4096 sampleInput).next [[sampleRelIn], [sampleRelIn2]]).cells)
      ("Ingrese el numero de sesiones: " :: "Ingrese el numero de relaciones: " ::
        [[sampleRelIn], [sampleRelIn2]].flatten.flatMap (fun _ => recPrompts))
      (1 + [[sampleRelIn], [sampleRelIn2]].length +
        4 * [[sampleRelIn], [sampleRelIn2]].flatten.length)
      (mainLog sampleLf samplePlatform ((worldOf 4096 sampleInput).writable stdout)
        (worldOf 4096 sampleInput).next 2 1 [[sampleRelIn], [sampleRelIn2]])).log =
      [7, 5, 6, 4, 2, 11, 9, 10, 8, 3, 1] := hfrees
  refine ⟨⟨_, hrun, by decide, hlog, ?_⟩, ?_⟩
  · rintro ⟨strs, h⟩
    rw [hlog] at h
    have h3 := congrArg List.reverse h
    simp at h3
  · exact main_null_dato sampleLf samplePlatform _ 1 1 _ (by decide) rfl (by decide)


/-! ### C10: runs without records -/

/-- C10 (amended): when the session count or the relation count read is zero or negative
and, if the session count is positive, the allocation of the outer array succeeds, `main`
returns 0 having consumed the two counts only and prompted for nothing else, and leaves
every stream as it was. Its events are the read of `N`, the allocation of the outer array
`d`, the read of `M`, then for each of the `N` sessions (none when `N <= 0`) a call of
`malloc` whose result `p`, null or not, is stored in the outer array, then for each session
the load of that pointer and its release, and last the release of the outer array: the two
counts are the only values read, nothing is written, and every load and store is on the
outer array of pointers, none on an array of records. -/
theorem main_without_records (fmtLf : CDouble → String) (u : Platform) (w : World)
    (N M : Int) (rest : List Token) (h : N ≤ 0 ∨ M ≤ 0)
    (hin : w.stdin = Token.int N :: Token.int M :: rest)
    (hmem : 0 < N → w.grants (w.next + 1) (sizeMul N 8) = true) :
    ∃ w1 evs d rows, main fmtLf u w = Except.ok (0, w1) ∧
      w1.stdin = rest ∧
      w1.prompts =
        w.prompts ++ ["Ingrese el numero de sesiones: ", "Ingrese el numero de relaciones: "] ∧
      w1.files = w.files ∧
      w1.log = w.log ++ evs ∧
      d = (if w.grants (w.next + 1) (sizeMul N 8) then w.next + 1 else 0) ∧
      rows = allocAddrs w.grants (sizeMul M u.sizeofRelacion) (w.next + 1) N.toNat ∧
      evs = [Event.read (Token.int N), Event.alloc d (sizeMul N 8),
          Event.read (Token.int M)] ++
        rows.flatMap (fun p => [Event.alloc p (sizeMul M u.sizeofRelacion), Event.store d]) ++
        rows.flatMap (fun p => [Event.load d, Event.free p]) ++ [Event.free d] ∧
      ioEvents evs = [Event.read (Token.int N), Event.read (Token.int M)] ∧
      (∀ e ∈ evs, e.isAccess = true → e.addr = d) := by
  have hio : ∀ (d : Nat) (rows : List Nat),
      ioEvents ([Event.read (Token.int N), Event.alloc d (sizeMul N 8),
          Event.read (Token.int M)] ++
        rows.flatMap (fun p => [Event.alloc p (sizeMul M u.sizeofRelacion), Event.store d]) ++
        rows.flatMap (fun p => [Event.load d, Event.free p]) ++ [Event.free d]) =
        [Event.read (Token.int N), Event.read (Token.int M)] := by
    intro d rows
    rw [ioEvents_append, ioEvents_append, ioEvents_append,
      ioEvents_flatMap_nil
        (fun p => [Event.alloc p (sizeMul M u.sizeofRelacion), Event.store d])
        (fun _ => rfl),
      ioEvents_flatMap_nil (fun p => [Event.load d, Event.free p]) (fun _ => rfl)]
    rfl
  have hacc : ∀ (d : Nat) (rows : List Nat),
      ∀ e ∈ [Event.read (Token.int N), Event.alloc d (sizeMul N 8),
          Event.read (Token.int M)] ++
        rows.flatMap (fun p => [Event.alloc p (sizeMul M u.sizeofRelacion), Event.store d]) ++
        rows.flatMap (fun p => [Event.load d, Event.free p]) ++ [Event.free d],
        e.isAccess = true → e.addr = d := by
    intro d rows e he
    simp only [List.mem_append, List.mem_cons, List.mem_singleton, List.mem_flatMap,
      List.not_mem_nil, or_false] at he
    rcases he with (((rfl | rfl | rfl) | ⟨x, _, rfl | rfl⟩) | ⟨x, _, rfl | rfl⟩) | rfl <;>
      simp [Event.isAccess, Event.addr]
  have hfiles : ∀ (k : Nat) (evs : List Event),
      (w.step rest ""
        ["Ingrese el numero de sesiones: ", "Ingrese el numero de relaciones: "] k evs).files =
        w.files := by
    intro k evs
    funext s
    by_cases hs : s = stdout
    · subst hs
      simp only [World.step, Function.update_same]
      exact String.append_empty _
    · simp [World.step, Function.update_noteq hs]
  by_cases hN : N ≤ 0
  · have hn : N.toNat = 0 := by omega
    refine ⟨_, _, _, _, main_no_sessions fmtLf u w N M rest hN hin, rfl, rfl, hfiles _ _, rfl,
      rfl, rfl, ?_, ?_, ?_⟩
    · rw [hn]
      rfl
    · exact hio _ []
    · exact hacc _ []
  · have hM : M ≤ 0 := by omega
    have hg := hmem (by omega)
    refine ⟨_, _, _, _, main_no_relations fmtLf u w N M rest hM hin hg, rfl, rfl, hfiles _ _,
      rfl, rfl, rfl, ?_, ?_, ?_⟩
    · rw [if_pos hg]
    · exact hio _ _
    · rw [if_pos hg]
      exact hacc _ _

/-- Witness of C10 as amended: three sessions of minus two relations. The outer array of 24
bytes is granted; each row is asked for with `(2 ^ 64 - 2) * 72 mod 2 ^ 64` bytes, which
the allocator refuses, so the three row pointers are null and `free(NULL)` is called three
times. -/
theorem main_without_records_witness :
    (((3 : Int) ≤ 0 ∨ (-2 : Int) ≤ 0) ∧
      (worldOf 4096 [Token.int 3, Token.int (-2), Token.int 7]).stdin =
        Token.int 3 :: Token.int (-2) :: [Token.int 7] ∧
      ((0 : Int) < 3 → (worldOf 4096 [Token.int 3, Token.int (-2), Token.int 7]).grants
        (0 + 1) (sizeMul 3 8) = true)) ∧
    (∃ w1 evs d rows, main sampleLf samplePlatform
        (worldOf 4096 [Token.int 3, Token.int (-2), Token.int 7]) = Except.ok (0, w1) ∧
      w1.stdin = [Token.int 7] ∧
      w1.prompts = [] ++
        ["Ingrese el numero de sesiones: ", "Ingrese el numero de relaciones: "] ∧
      w1.files = (fun _ => "") ∧
      w1.log = [] ++ evs ∧
      d = (if (worldOf 4096 [Token.int 3, Token.int (-2), Token.int 7]).grants (0 + 1)
        (sizeMul 3 8) then 0 + 1 else 0) ∧
      rows = allocAddrs (worldOf 4096 [Token.int 3, Token.int (-2), Token.int 7]).grants
        (sizeMul (-2) samplePlatform.sizeofRelacion) (0 + 1) (3 : Int).toNat ∧
      evs = [Event.read (Token.int 3), Event.alloc d (sizeMul 3 8),
          Event.read (Token.int (-2))] ++
        rows.flatMap
          (fun p => [Event.alloc p (sizeMul (-2) samplePlatform.sizeofRelacion),
            Event.store d]) ++
        rows.flatMap (fun p => [Event.load d, Event.free p]) ++ [Event.free d] ∧
      ioEvents evs = [Event.read (Token.int 3), Event.read (Token.int (-2))] ∧
      (∀ e ∈ evs, e.isAccess = true → e.addr = d)) ∧
    sizeMul (-2) samplePlatform.sizeofRelacion = 2 ^ 64 - 144 ∧
    allocAddrs (worldOf 4096 [Token.int 3, Token.int (-2), Token.int 7]).grants
      (sizeMul (-2) samplePlatform.sizeofRelacion) (0 + 1) (3 : Int).toNat = [0, 0, 0] :=
  ⟨⟨by decide, rfl, fun _ => by decide⟩,
    main_without_records sampleLf samplePlatform
      (worldOf 4096 [Token.int 3, Token.int (-2), Token.int 7]) 3 (-2) [Token.int 7]
      (by decide) rfl (fun _ => by decide),
    by decide, by decide⟩

/-- Counterexample to C10 as stated: with 2147483647 sessions of zero relations, when the
allocator refuses the 17179869176 bytes of the outer array, `main` stores the first row
pointer through the null pointer (main.c, line 88) and the run ends there instead of
returning 0. -/
theorem main_null_outer_array_counterexample :
    ((2147483647 : Int) ≤ 0 ∨ (0 : Int) ≤ 0) ∧
    sizeMul 2147483647 8 = 17179869176 ∧
    (worldOf 4096 [Token.int 2147483647, Token.int 0]).grants 1 (sizeMul 2147483647 8) =
      false ∧
    main sampleLf samplePlatform (worldOf 4096 [Token.int 2147483647, Token.int 0]) =
      Except.error Fault.null :=
  ⟨by decide, by decide, by decide,
    main_null_dato sampleLf samplePlatform _ 2147483647 0 [] (by decide) rfl (by decide)⟩

end BDE

namespace TUI

/-! ## The header `tui.h` -/

/-- C4: the control strings of the header are the escape sequences the specification
lists: `NEW_SCREEN()` and `CLOSE_SCREEN()` write ESC[?1049h and ESC[?1049l, the styles
NORMAL, BOLD, DIM, ITALIC and INVERSE are ESC[0m, ESC[1m, ESC[2m, ESC[3m and ESC[7m,
HIDE_CURSOR and SHOW_CURSOR are ESC[?25l and ESC[?25h, and the nine strings are pairwise
distinct. -/
theorem control_sequences_as_listed :
    (∀ out, NEW_SCREEN out = out ++ escSeq "[?1049h") ∧
    (∀ out, CLOSE_SCREEN out = out ++ escSeq "[?1049l") ∧
    NORMAL = escSeq "[0m" ∧ BOLD = escSeq "[1m" ∧ DIM = escSeq "[2m" ∧
    ITALIC = escSeq "[3m" ∧ INVERSE = escSeq "[7m" ∧
    HIDE_CURSOR = escSeq "[?25l" ∧ SHOW_CURSOR = escSeq "[?25h" ∧
    [NEW_SCREEN "", CLOSE_SCREEN "", NORMAL, BOLD, DIM, ITALIC, INVERSE, HIDE_CURSOR,
      SHOW_CURSOR].Nodup := by
  refine ⟨fun out => ?_, fun out => ?_, ?_, ?_, ?_, ?_, ?_, ?_, ?_, ?_⟩
  · show out ++ "\x1b[?1049h" = out ++ escSeq "[?1049h"
    exact congrArg (out ++ ·) (by decide)
  · show out ++ "\x1b[?1049l" = out ++ escSeq "[?1049l"
    exact congrArg (out ++ ·) (by decide)
  all_goals decide

/-- C9: the widget data model of the header is the closed set of the specification: the
widget tag has exactly the three values INPUT, LIST and BUTTON, the input class of a text
input exactly the four values NUMERIC, ALPHA, ALPHANUMERIC and ANY, its display mode
exactly the two values PLAIN and PASSWORD (numbered from 0 in this order, as C numbers
enumerators), `struct inputWidget` holds one member of each of the two enumerations, and
the struct behind each of the three tags has a callback member `on_focus` and a callback
member `on_unfocus`. -/
theorem widget_model_closed :
    (∀ t : widget_type, t ∈ [widget_type.INPUT, widget_type.LIST, widget_type.BUTTON]) ∧
    [widget_type.INPUT, widget_type.LIST, widget_type.BUTTON].map widget_type.toInt
      = [0, 1, 2] ∧
    (∀ t : input_type,
      t ∈ [input_type.NUMERIC, input_type.ALPHA, input_type.ALPHANUMERIC, input_type.ANY]) ∧
    [input_type.NUMERIC, input_type.ALPHA, input_type.ALPHANUMERIC, input_type.ANY].map
      input_type.toInt = [0, 1, 2, 3] ∧
    (∀ m : text_mode, m ∈ [text_mode.PLAIN, text_mode.PASSWORD]) ∧
    [text_mode.PLAIN, text_mode.PASSWORD].map text_mode.toInt = [0, 1] ∧
    (⟨"type", "enum input_type"⟩ ∈ inputWidget ∧ ⟨"mode", "enum text_mode"⟩ ∈ inputWidget) ∧
    (∀ t : widget_type,
      ⟨"on_focus", "Result (*)(void *)"⟩ ∈ t.members ∧
      ⟨"on_unfocus", "Result (*)(void *)"⟩ ∈ t.members) := by
  refine ⟨fun t => ?_, by decide, fun t => ?_, by decide, fun m => ?_, by decide,
    ⟨by decide, by decide⟩, fun t => ?_⟩
  · cases t <;> decide
  · cases t <;> decide
  · cases m <;> decide
  · cases t <;> exact ⟨by decide, by decide⟩

/-! ## The engine of the specification -/

theorem advance_forward_iterate (r : FocusRing) (hcur : r.current < r.widgets.length) :
    ∀ k : Nat,
      ((FocusRing.advance Direction.FORWARD)^[k] r).widgets = r.widgets ∧
      ((FocusRing.advance Direction.FORWARD)^[k] r).current =
        (r.current + k) % r.widgets.length ∧
      ((FocusRing.advance Direction.FORWARD)^[k] r).calls =
        r.calls ++ (List.range k).flatMap (fun i =>
          [FocusCall.clearFocus ((r.current + i) % r.widgets.length),
           FocusCall.setFocus ((r.current + i + 1) % r.widgets.length)]) := by
  intro k
  induction k with
  | zero => simp [Nat.mod_eq_of_lt hcur]
  | succ k ih =>
    obtain ⟨hw, hc, hl⟩ := ih
    have hne : r.widgets.length ≠ 0 := by omega
    rw [Function.iterate_succ_apply']
    simp only [FocusRing.advance, hw, hne, if_false, hc, hl, List.range_succ,
      List.flatMap_append, List.flatMap_cons, List.flatMap_nil, List.append_nil,
      List.append_assoc, Nat.mod_add_mod, true_and]
    simp [Nat.add_assoc]

/-- C5: on a non-empty Focus Ring of `N` widgets (one whose focus index points at a widget),
`N` calls of `advance(FORWARD)` bring the focus back to the widget it started on, and invoke
exactly `N` pairs of focus callbacks in strict alternation: for each step `clearFocus` on
the widget losing the focus and then `setFocus` on the next widget of the ring, which is
the one losing it in the next step. -/
theorem advance_forward_full_turn (r : FocusRing) (hcur : r.current < r.widgets.length) :
    ((FocusRing.advance Direction.FORWARD)^[r.widgets.length] r).current = r.current ∧
    ((FocusRing.advance Direction.FORWARD)^[r.widgets.length] r).focused = r.focused ∧
    ((FocusRing.advance Direction.FORWARD)^[r.widgets.length] r).calls =
      r.calls ++ (List.range r.widgets.length).flatMap (fun i =>
        [FocusCall.clearFocus ((r.current + i) % r.widgets.length),
         FocusCall.setFocus ((r.current + i + 1) % r.widgets.length)]) ∧
    ((FocusRing.advance Direction.FORWARD)^[r.widgets.length] r).calls.length =
      r.calls.length + 2 * r.widgets.length := by
  obtain ⟨hw, hc, hl⟩ := advance_forward_iterate r hcur r.widgets.length
  have hc2 : ((FocusRing.advance Direction.FORWARD)^[r.widgets.length] r).current = r.current := by
    rw [hc, Nat.add_mod_right, Nat.mod_eq_of_lt hcur]
  refine ⟨hc2, ?_, hl, ?_⟩
  · simp only [FocusRing.focused, hw, hc2]
  · have hlen : ∀ n : Nat, ((List.range n).flatMap (fun i =>
        [FocusCall.clearFocus ((r.current + i) % r.widgets.length),
         FocusCall.setFocus ((r.current + i + 1) % r.widgets.length)])).length = 2 * n := by
      intro n
      induction n with
      | zero => rfl
      | succ n ih =>
        rw [List.range_succ, List.flatMap_append, List.length_append, ih]
        simp only [List.flatMap_cons, List.flatMap_nil, List.append_nil, List.length_cons,
          List.length_nil]
        omega
    rw [hl, List.length_append, hlen]

/-- Witness of C5: a ring of an input, a list and a button, the list focused. -/
theorem advance_forward_full_turn_witness :
    (1 < ([⟨widget_type.INPUT, 1⟩, ⟨widget_type.LIST, 2⟩, ⟨widget_type.BUTTON, 3⟩] :
      List Widget).length) ∧
    ((FocusRing.advance Direction.FORWARD)^[3]
      ⟨[⟨widget_type.INPUT, 1⟩, ⟨widget_type.LIST, 2⟩, ⟨widget_type.BUTTON, 3⟩], 1, []⟩).current
      = 1 :=
  ⟨by decide,
    (advance_forward_full_turn
      ⟨[⟨widget_type.INPUT, 1⟩, ⟨widget_type.LIST, 2⟩, ⟨widget_type.BUTTON, 3⟩], 1, []⟩
      (by decide)).1⟩

theorem type_chars_numeric (on_accept : List Char → Result) :
    ∀ (chars : List Char) (t : TextInput), t.type = input_type.NUMERIC →
      t.buffer.length + (chars.filter Char.isDigit).length ≤ t.width →
      (TextInput.type_chars on_accept t chars).2 =
        { t with buffer := t.buffer ++ chars.filter Char.isDigit } ∧
      (TextInput.type_chars on_accept t chars).1 = List.replicate chars.length Result.OK := by
  intro chars
  induction chars with
  | nil => intro t _ _; simp [TextInput.type_chars]
  | cons c cs ih =>
    intro t ht hfit
    by_cases hd : c.isDigit = true
    · have hlt : t.buffer.length < t.width := by
        simp only [List.filter_cons, hd, if_true, List.length_cons] at hfit
        omega
      have h1 : t.handleKey on_accept (Key.char c) =
          (Result.OK, { t with buffer := t.buffer ++ [c] }) := by
        simp [TextInput.handleKey, ht, input_type.accepts, hd, hlt]
      have h2 := ih { t with buffer := t.buffer ++ [c] } ht (by
        simp only [List.filter_cons, hd, if_true, List.length_cons] at hfit
        simp only [List.length_append, List.length_singleton]
        omega)
      simp only [TextInput.type_chars, h1, h2.1, h2.2, List.filter_cons, hd, if_true,
        List.length_cons, List.replicate_succ]
      simp
    · have h1 : t.handleKey on_accept (Key.char c) = (Result.OK, t) := by
        simp [TextInput.handleKey, ht, input_type.accepts, hd]
      have h2 := ih t ht (by simpa [List.filter_cons, hd] using hfit)
      simp only [TextInput.type_chars, h1, h2.1, h2.2, List.filter_cons, hd,
        List.length_cons, List.replicate_succ]
      simp

/-- C6: a TextInput of class NUMERIC rejects the characters outside its class silently:
for every sequence of typed characters whose digits fit the buffer, the buffer ends up
holding what it held followed by exactly the decimal digits typed, in typing order, and
every key reports success; in particular, typing "12a3" into an empty input yields the
buffer "123". -/
theorem numeric_input_keeps_digits (on_accept : List Char → Result) (t : TextInput)
    (chars : List Char) (hnum : t.type = input_type.NUMERIC)
    (hfit : t.buffer.length + (chars.filter Char.isDigit).length ≤ t.width) :
    (TextInput.type_chars on_accept t chars).2.buffer =
      t.buffer ++ chars.filter Char.isDigit ∧
    (TextInput.type_chars on_accept t chars).2.type = input_type.NUMERIC ∧
    (∀ res ∈ (TextInput.type_chars on_accept t chars).1, res = Result.OK) ∧
    (TextInput.type_chars on_accept t chars).1.length = chars.length ∧
    (TextInput.type_chars on_accept ⟨input_type.NUMERIC, text_mode.PLAIN, 8, []⟩
      "12a3".toList).2.buffer = "123".toList := by
  obtain ⟨h1, h2⟩ := type_chars_numeric on_accept chars t hnum hfit
  have h3 := type_chars_numeric on_accept "12a3".toList
    ⟨input_type.NUMERIC, text_mode.PLAIN, 8, []⟩ rfl (by decide)
  refine ⟨by rw [h1], by rw [h1]; exact hnum, ?_, by rw [h2]; simp, ?_⟩
  · intro res hres
    rw [h2] at hres
    exact (List.mem_replicate.mp hres).2
  · rw [h3.1]
    decide

/-- Witness of C6: "12a3" typed into an empty numeric input eight characters wide. -/
theorem numeric_input_keeps_digits_witness :
    ((⟨input_type.NUMERIC, text_mode.PLAIN, 8, []⟩ : TextInput).type = input_type.NUMERIC ∧
      (⟨input_type.NUMERIC, text_mode.PLAIN, 8, []⟩ : TextInput).buffer.length +
        ("12a3".toList.filter Char.isDigit).length ≤ 8) ∧
    (TextInput.type_chars (fun _ => Result.OK) ⟨input_type.NUMERIC, text_mode.PLAIN, 8, []⟩
      "12a3".toList).2.buffer = [] ++ "12a3".toList.filter Char.isDigit :=
  ⟨⟨rfl, by decide⟩,
    (numeric_input_keeps_digits (fun _ => Result.OK)
      ⟨input_type.NUMERIC, text_mode.PLAIN, 8, []⟩ "12a3".toList rfl (by decide)).1⟩

theorem handleKey_valid (l : SelectableList) (hv : l.valid) (k : Key) :
    (l.handleKey k).valid := by
  obtain ⟨h0, h1⟩ := hv
  cases k <;> simp only [SelectableList.handleKey, SelectableList.valid] <;>
    first
    | exact ⟨h0, h1⟩
    | (split
       · exact ⟨h0, h1⟩
       · simp only [SelectableList.valid]
         constructor <;> omega)

/-- C7: on a SelectableList with a non-empty item list and a valid selected index, Up and
Down move the index by one, clamped to the list and without wraparound, no key changes the
items, and `0 <= selected < length(items)` holds after every key and so after every
sequence of keys; in particular with the items A, B, C and index 0, Down pressed twice
gives index 2 and a third Down leaves it at 2. -/
theorem list_selection_clamped (l : SelectableList) (hne : l.items ≠ []) (hv : l.valid) :
    (∀ k : Key, (l.handleKey k).valid ∧ (l.handleKey k).items = l.items) ∧
    (∀ keys : List Key, (keys.foldl SelectableList.handleKey l).valid) ∧
    (l.handleKey Key.down).selected = min (l.selected + 1) (l.items.length - 1) ∧
    (l.handleKey Key.up).selected = max (l.selected - 1) 0 ∧
    (((⟨["A", "B", "C"], 0⟩ : SelectableList).handleKey Key.down).handleKey Key.down).selected
      = 2 ∧
    ((((⟨["A", "B", "C"], 0⟩ : SelectableList).handleKey Key.down).handleKey
      Key.down).handleKey Key.down).selected = 2 := by
  have hlen : l.items.length ≠ 0 := by
    intro h
    exact hne (List.length_eq_zero.mp h)
  obtain ⟨h0, h1⟩ := hv
  refine ⟨fun k => ⟨handleKey_valid l ⟨h0, h1⟩ k, ?_⟩, fun keys => ?_, ?_, ?_, by decide,
    by decide⟩
  · cases k <;> simp only [SelectableList.handleKey] <;> first | rfl | (split <;> rfl)
  · have : ∀ (keys : List Key) (l : SelectableList), l.valid →
        (keys.foldl SelectableList.handleKey l).valid := by
      intro keys
      induction keys with
      | nil => intro l h; exact h
      | cons k ks ih => intro l h; exact ih _ (handleKey_valid l h k)
    exact this keys l ⟨h0, h1⟩
  · simp only [SelectableList.handleKey, hlen, if_false]
    omega
  · simp only [SelectableList.handleKey, hlen, if_false]
    omega

/-- Witness of C7: the items A, B, C with the first one selected. -/
theorem list_selection_clamped_witness :
    ((⟨["A", "B", "C"], 0⟩ : SelectableList).items ≠ [] ∧
      (⟨["A", "B", "C"], 0⟩ : SelectableList).valid) ∧
    ((⟨["A", "B", "C"], 0⟩ : SelectableList).handleKey Key.down).selected =
      min ((0 : Int) + 1) (([("A" : String), "B", "C"].length : Int) - 1) :=
  ⟨⟨by decide, by decide, by decide⟩,
    (list_selection_clamped ⟨["A", "B", "C"], 0⟩ (by decide)
      ⟨by decide, by decide⟩).2.2.1⟩

end TUI
